import Mathlib

/-!
Verification development for the API integration assistant pipeline.

We shallowly embed the Python pipeline (crawler.py, openapi_builder.py,
contracts.py, mapper.py, plan_generator.py) over a JSON value type.
Python dicts are modelled as insertion-ordered association lists (`JObj`),
Python lists as `JArr`.  Operations that can raise a Python exception are
modelled in the `Except String` monad, the error string naming the Python
exception class.  JSON numbers are modelled as integers (no float enters
any property proved here).
-/

mutual
inductive Json where
  | null : Json
  | bool (b : Bool) : Json
  | num (n : Int) : Json
  | str (s : String) : Json
  | arr (xs : JArr) : Json
  | obj (kvs : JObj) : Json
  deriving DecidableEq, Repr
inductive JArr where
  | nil : JArr
  | cons (hd : Json) (tl : JArr) : JArr
  deriving DecidableEq, Repr
inductive JObj where
  | nil : JObj
  | cons (k : String) (v : Json) (tl : JObj) : JObj
  deriving DecidableEq, Repr
end

-- Size measure used for well-founded recursion over `Json`.
mutual
def jsize : Json → Nat
  | .arr xs => 1 + asize xs
  | .obj kvs => 1 + osize kvs
  | _ => 1
def asize : JArr → Nat
  | .nil => 0
  | .cons h t => 1 + jsize h + asize t
def osize : JObj → Nat
  | .nil => 0
  | .cons _ v t => 1 + jsize v + osize t
end

/-- `d.get(key)` on a Python dict: first matching key (keys of a real
Python dict are unique, so first = only). -/
def oget : JObj → String → Option Json
  | .nil, _ => none
  | .cons k v t, key => if k = key then some v else oget t key

/-- `d.get(key, default)`. -/
def ogetD (kvs : JObj) (key : String) (dflt : Json) : Json :=
  (oget kvs key).getD dflt

/-- `key in d` for a Python dict. -/
def ohas (kvs : JObj) (key : String) : Bool :=
  (oget kvs key).isSome

/-- `d[key] = v` on a Python dict: overwrite in place if the key exists,
otherwise append at the end (insertion order). -/
def oset : JObj → String → Json → JObj
  | .nil, key, v => .cons key v .nil
  | .cons k w t, key, v =>
      if k = key then .cons k v t else .cons k w (oset t key v)

def oappend : JObj → JObj → JObj
  | .nil, q => q
  | .cons k v t, q => .cons k v (oappend t q)

/-- `list(d.keys())`. -/
def okeys : JObj → List String
  | .nil => []
  | .cons k _ t => k :: okeys t

/-- `d.setdefault(key, v)`: keep an existing entry, else append. -/
def osetdefault (kvs : JObj) (key : String) (v : Json) : JObj :=
  if ohas kvs key then kvs else oappend kvs (.cons key v .nil)

/-- `d.update(u)` for dicts: existing keys are overwritten in place,
new keys are appended in `u`-order. -/
def odictUpdate : JObj → JObj → JObj
  | d, .nil => d
  | d, .cons k v t => odictUpdate (oset d k v) t

/-- Remove the first entry with the given key (models `del d[key]` for a
dict that holds the key once). -/
def oremove : JObj → String → JObj
  | .nil, _ => .nil
  | .cons k v t, key => if k = key then t else .cons k v (oremove t key)

def JArr.toList : JArr → List Json
  | .nil => []
  | .cons h t => h :: JArr.toList t

def JArr.ofList : List Json → JArr
  | [] => .nil
  | h :: t => .cons h (JArr.ofList t)

def JArr.length (a : JArr) : Nat := a.toList.length

/-- Python truthiness of a JSON value. -/
def truthy : Json → Bool
  | .null => false
  | .bool b => b
  | .num n => n ≠ 0
  | .str s => s ≠ ""
  | .arr .nil => false
  | .arr _ => true
  | .obj .nil => false
  | .obj _ => true

/-- A single-quote character, used inside ported Python message strings. -/
def sQuote : String := (Char.ofNat 39).toString

/-- A double-quote character. -/
def dQuoteC : Char := Char.ofNat 34

/-- The single-quote character. -/
def sQuoteC : Char := Char.ofNat 39

/-- The backslash character. -/
def bslashC : Char := Char.ofNat 92

def hexDigitC (n : Nat) : String :=
  (Char.ofNat (if n < 10 then 48 + n else 87 + n)).toString

-- The quote character CPython `repr` picks for a string: a single quote,
-- unless the string contains a single quote and no double quote.
def pyQuoteFor (s : String) : Char :=
  if s.contains sQuoteC && !(s.contains dQuoteC) then dQuoteC else sQuoteC

-- How CPython `repr` renders one character of a string quoted with `qc`:
-- backslashes and the chosen quote are backslash-escaped, newline /
-- carriage return / tab use their two-character escapes, the remaining
-- C0 controls and DEL print as \xNN.  Characters at or above U+0080 are
-- kept as-is (CPython escapes the non-printable ones among them; the
-- strings this pipeline handles are printable).
def pyCharEsc (qc c : Char) : String :=
  if c = bslashC then (bslashC.toString ++ bslashC.toString)
  else if c = qc then (bslashC.toString ++ qc.toString)
  else if c = Char.ofNat 10 then (bslashC.toString ++ "n")
  else if c = Char.ofNat 13 then (bslashC.toString ++ "r")
  else if c = Char.ofNat 9 then (bslashC.toString ++ "t")
  else if c.toNat < 32 || c.toNat = 127 then
    (bslashC.toString ++ "x" ++ hexDigitC (c.toNat / 16) ++ hexDigitC (c.toNat % 16))
  else c.toString

/-- `repr` of a Python string: quote choice and escaping as in CPython. -/
def pyReprStr (s : String) : String :=
  let qc := pyQuoteFor s
  qc.toString ++ String.join (s.toList.map (pyCharEsc qc)) ++ qc.toString

-- `str(x)` / `repr(x)` for the JSON values this pipeline handles.
-- Containers repr their elements (and dict keys), as in Python.
mutual
def pyRepr : Json → String
  | .null => "None"
  | .bool true => "True"
  | .bool false => "False"
  | .num n => toString n
  | .str s => pyReprStr s
  | .arr xs => "[" ++ pyReprArr xs ++ "]"
  | .obj kvs => "\x7b" ++ pyReprObj kvs ++ "\x7d"
def pyReprArr : JArr → String
  | .nil => ""
  | .cons h .nil => pyRepr h
  | .cons h t => pyRepr h ++ ", " ++ pyReprArr t
def pyReprObj : JObj → String
  | .nil => ""
  | .cons k v .nil => pyReprStr k ++ ": " ++ pyRepr v
  | .cons k v t => pyReprStr k ++ ": " ++ pyRepr v ++ ", " ++ pyReprObj t
end

/-- `str(x)`: like `repr` except that a top-level string prints bare. -/
def pyStr : Json → String
  | .str s => s
  | v => pyRepr v

/-- `len(x)` for the values Python's `len` accepts. -/
def pyLen : Json → Except String Int
  | .arr xs => .ok xs.length
  | .obj kvs => .ok (okeys kvs).length
  | .str s => .ok s.length
  | _ => .error "TypeError"

/-- Iteration `for x in v`: lists yield elements, strings yield their
characters (as one-character strings), dicts yield their keys; other
values are not iterable. -/
def pyToList : Json → Except String (List Json)
  | .arr xs => .ok xs.toList
  | .str s => .ok (s.toList.map (fun c => .str c.toString))
  | .obj kvs => .ok ((okeys kvs).map .str)
  | _ => .error "TypeError"

/-- Python `key in v` for a string key: dict key lookup, substring test
on strings, element equality on lists; other values raise. -/
def pyMem (key : String) : Json → Except String Bool
  | .obj kvs => .ok (ohas kvs key)
  | .str s => .ok ((s.splitOn key).length > 1)
  | .arr xs => .ok (xs.toList.contains (.str key))
  | _ => .error "TypeError"

/-- Require a dict (for attribute access such as `.get` / `.items`). -/
def asObj : Json → Except String JObj
  | .obj kvs => .ok kvs
  | _ => .error "AttributeError"

def Json.isObjB : Json → Bool
  | .obj _ => true
  | _ => false

def Json.isStrB : Json → Bool
  | .str _ => true
  | _ => false

def Json.isArrB : Json → Bool
  | .arr _ => true
  | _ => false

def emptyObj : Json := .obj .nil
def emptyArr : Json := .arr .nil

def isOkE (r : Except String Json) : Bool :=
  match r with
  | .ok _ => true
  | .error _ => false

def mapME (f : α → Except String β) : List α → Except String (List β)
  | [] => .ok []
  | x :: xs => do
      let y ← f x
      let ys ← mapME f xs
      .ok (y :: ys)

/-! ## openapi_builder.py -/

def strSchema : Json := .obj (.cons "type" (.str "string") .nil)
def objSchema : Json := .obj (.cons "type" (.str "object") .nil)

-- `[_build_schema(s) for s in v]` when `v` is a string or a dict: every
-- iterated element is a non-dict (a character / a key string), and
-- `_build_schema` maps any non-dict to `{"type": "string"}`.
def constArr : Nat → JArr
  | 0 => .nil
  | n + 1 => .cons strSchema (constArr n)

-- Keys whose values `_build_schema` copies verbatim, in source order
-- (after `type`, which is handled separately because of `nullable`).
def scalarKeys : List String :=
  ["format", "description", "enum", "default", "example",
   "minimum", "maximum", "exclusiveMinimum", "exclusiveMaximum", "multipleOf",
   "minLength", "maxLength", "pattern",
   "minItems", "maxItems", "uniqueItems"]

def copyKeys (kvs : JObj) : List String → JObj
  | [] => .nil
  | k :: ks =>
    match oget kvs k with
    | some v => .cons k v (copyKeys kvs ks)
    | none => copyKeys kvs ks

-- `_build_schema` sets `built_schema['type'] = schema['type']` first and,
-- as its final step, replaces it by `[type, 'null']` when the schema has a
-- truthy `nullable` and `type` is present.  No step in between touches
-- `type`, so computing the final value up front is equivalent.
def typePart (kvs : JObj) : JObj :=
  match oget kvs "type" with
  | none => .nil
  | some t =>
    .cons "type"
      (if truthy (ogetD kvs "nullable" .null) then .arr (.cons t (.cons (.str "null") .nil)) else t)
      .nil

-- Size lemma needed by the termination argument of `buildSchema`.
theorem oget_size {k : String} {v : Json} :
    ∀ (kvs : JObj), oget kvs k = some v → jsize v ≤ osize kvs
  | .nil, h => by simp [oget] at h
  | .cons k2 v2 t, h => by
    simp only [oget] at h
    by_cases hk : k2 = k
    · simp [hk] at h; subst h; simp [osize]; omega
    · simp [hk] at h
      have := oget_size t h
      simp [osize]; omega

mutual
/-- `_build_schema` from openapi_builder.py: the Schema Composer. -/
def buildSchema (j : Json) : Except String Json :=
  match j with
  | .obj kvs =>
    if ohas kvs "$ref" then .ok (.obj kvs)
    else do
      let propsPart : JObj ← (match h : oget kvs "properties" with
        | none => Except.ok JObj.nil
        | some (.obj ps) =>
            (buildSchemaProps ps).map (fun ps2 => JObj.cons "properties" (.obj ps2) .nil)
        | some _ => Except.error "AttributeError")
      let reqPart : JObj := (match oget kvs "required" with
        | none => JObj.nil
        | some v => JObj.cons "required" v JObj.nil)
      let apPart : JObj ← (match h : oget kvs "additionalProperties" with
        | none => Except.ok JObj.nil
        | some (.bool b) => Except.ok (JObj.cons "additionalProperties" (.bool b) JObj.nil)
        | some v => (buildSchema v).map (fun v2 => JObj.cons "additionalProperties" v2 JObj.nil))
      let itemsPart : JObj ← (match h : oget kvs "items" with
        | none => Except.ok JObj.nil
        | some v => (buildSchema v).map (fun v2 => JObj.cons "items" v2 JObj.nil))
      let oneOfPart : JObj ← (match h : oget kvs "oneOf" with
        | none => Except.ok JObj.nil
        | some (.arr xs) => (buildSchemaArr xs).map (fun ys => JObj.cons "oneOf" (.arr ys) JObj.nil)
        | some (.str s) => Except.ok (JObj.cons "oneOf" (.arr (constArr s.length)) JObj.nil)
        | some (.obj o) => Except.ok (JObj.cons "oneOf" (.arr (constArr (okeys o).length)) JObj.nil)
        | some _ => Except.error "TypeError")
      let anyOfPart : JObj ← (match h : oget kvs "anyOf" with
        | none => Except.ok JObj.nil
        | some (.arr xs) => (buildSchemaArr xs).map (fun ys => JObj.cons "anyOf" (.arr ys) JObj.nil)
        | some (.str s) => Except.ok (JObj.cons "anyOf" (.arr (constArr s.length)) JObj.nil)
        | some (.obj o) => Except.ok (JObj.cons "anyOf" (.arr (constArr (okeys o).length)) JObj.nil)
        | some _ => Except.error "TypeError")
      let allOfPart : JObj ← (match h : oget kvs "allOf" with
        | none => Except.ok JObj.nil
        | some (.arr xs) => (buildSchemaArr xs).map (fun ys => JObj.cons "allOf" (.arr ys) JObj.nil)
        | some (.str s) => Except.ok (JObj.cons "allOf" (.arr (constArr s.length)) JObj.nil)
        | some (.obj o) => Except.ok (JObj.cons "allOf" (.arr (constArr (okeys o).length)) JObj.nil)
        | some _ => Except.error "TypeError")
      let discPart : JObj := (match oget kvs "discriminator" with
        | none => JObj.nil
        | some v => JObj.cons "discriminator" v JObj.nil)
      Except.ok (.obj (oappend (typePart kvs) (oappend (copyKeys kvs scalarKeys)
        (oappend propsPart (oappend reqPart (oappend apPart (oappend itemsPart
        (oappend oneOfPart (oappend anyOfPart (oappend allOfPart discPart))))))))))
  | _ => Except.ok strSchema
termination_by jsize j
decreasing_by
  all_goals simp_wf
  all_goals try (have h2 := oget_size _ h; simp [jsize, osize, asize] at *; omega)
  all_goals simp [jsize, osize, asize] at *
  all_goals omega

/-- Recursive composition of each property value of an object schema. -/
def buildSchemaProps (o : JObj) : Except String JObj :=
  match o with
  | .nil => .ok .nil
  | .cons k v t =>
    (buildSchema v).bind fun v2 =>
    (buildSchemaProps t).map fun t2 => .cons k v2 t2
termination_by osize o
decreasing_by
  all_goals simp_wf
  all_goals simp [jsize, osize, asize] at *
  all_goals omega

/-- Recursive composition of each member of a `oneOf`/`anyOf`/`allOf` list. -/
def buildSchemaArr (a : JArr) : Except String JArr :=
  match a with
  | .nil => .ok .nil
  | .cons h t =>
    (buildSchema h).bind fun h2 =>
    (buildSchemaArr t).map fun t2 => .cons h2 t2
termination_by asize a
decreasing_by
  all_goals simp_wf
  all_goals simp [jsize, osize, asize] at *
  all_goals omega
end

-- The reference-node invariant of spec section 4.2, stated over the whole
-- tree: an object node holding `$ref` carries no other keys.
def isSingle : JObj → Bool
  | .cons _ _ .nil => true
  | _ => false

mutual
def refOk : Json → Bool
  | .null => true
  | .bool _ => true
  | .num _ => true
  | .str _ => true
  | .arr xs => refOkArr xs
  | .obj kvs => (!(ohas kvs "$ref") || isSingle kvs) && refOkObj kvs
termination_by j => jsize j
decreasing_by
  all_goals simp_wf
  all_goals simp [jsize, osize, asize] at *
  all_goals omega

def refOkObj : JObj → Bool
  | .nil => true
  | .cons _ v t => refOk v && refOkObj t
termination_by o => osize o
decreasing_by
  all_goals simp_wf
  all_goals simp [jsize, osize, asize] at *
  all_goals omega

def refOkArr : JArr → Bool
  | .nil => true
  | .cons h t => refOk h && refOkArr t
termination_by a => asize a
decreasing_by
  all_goals simp_wf
  all_goals simp [jsize, osize, asize] at *
  all_goals omega
end

-- A build-output fragment holding at most the one key `k0`.
def partFor (k0 : String) : Option Json → JObj
  | some v => .cons k0 v .nil
  | none => .nil

-- The final value of the `type` key of a composed object schema.
def typeView (kvs : JObj) : Option Json :=
  (oget kvs "type").map (fun t =>
    if truthy (ogetD kvs "nullable" .null) then .arr (.cons t (.cons (.str "null") .nil)) else t)

-- The canonical shape of every object the composer builds (non-passthrough).
def assembleParts (kvs : JObj) (ovp ova ovi ov1 ov2 ov3 : Option Json) : JObj :=
  oappend (partFor "type" (typeView kvs))
   (oappend (copyKeys kvs scalarKeys)
    (oappend (partFor "properties" ovp)
     (oappend (partFor "required" (oget kvs "required"))
      (oappend (partFor "additionalProperties" ova)
       (oappend (partFor "items" ovi)
        (oappend (partFor "oneOf" ov1)
         (oappend (partFor "anyOf" ov2)
          (oappend (partFor "allOf" ov3)
           (partFor "discriminator" (oget kvs "discriminator"))))))))))

-- Facts extracted by inverting each optional build step of `_build_schema`.
def PropsGood (kvs : JObj) (pv : Option Json) : Prop :=
  (pv = none ∧ oget kvs "properties" = none) ∨
  (∃ ps ps2, oget kvs "properties" = some (.obj ps) ∧ buildSchemaProps ps = .ok ps2 ∧
    pv = some (.obj ps2))

def ApGood (kvs : JObj) (av : Option Json) : Prop :=
  (av = none ∧ oget kvs "additionalProperties" = none) ∨
  (∃ b, oget kvs "additionalProperties" = some (.bool b) ∧ av = some (.bool b)) ∨
  (∃ v v2, oget kvs "additionalProperties" = some v ∧ buildSchema v = .ok v2 ∧ av = some v2)

def ItemsGood (kvs : JObj) (iv : Option Json) : Prop :=
  (iv = none ∧ oget kvs "items" = none) ∨
  (∃ v v2, oget kvs "items" = some v ∧ buildSchema v = .ok v2 ∧ iv = some v2)

def UnionGood (key : String) (kvs : JObj) (ov : Option Json) : Prop :=
  (ov = none ∧ oget kvs key = none) ∨
  (∃ xs ys, oget kvs key = some (.arr xs) ∧ buildSchemaArr xs = .ok ys ∧ ov = some (.arr ys)) ∨
  (∃ s : String, oget kvs key = some (.str s) ∧ ov = some (.arr (constArr s.length))) ∨
  (∃ o : JObj, oget kvs key = some (.obj o) ∧ ov = some (.arr (constArr (okeys o).length)))

-- The induction package for the composer: idempotence, key preservation
-- and reference-invariant preservation, bounded by input size.
def SchemaP (n : Nat) : Prop :=
  (∀ x y, jsize x ≤ n → buildSchema x = .ok y →
    (∃ k2, y = .obj k2) ∧ buildSchema y = .ok y ∧ (refOk x = true → refOk y = true)) ∧
  (∀ o o2, osize o ≤ n → buildSchemaProps o = .ok o2 →
    okeys o2 = okeys o ∧ buildSchemaProps o2 = .ok o2 ∧
    (refOkObj o = true → refOkObj o2 = true)) ∧
  (∀ a a2, asize a ≤ n → buildSchemaArr a = .ok a2 →
    buildSchemaArr a2 = .ok a2 ∧ (refOkArr a = true → refOkArr a2 = true))

/-- `_build_servers`. -/
def buildServers (apiInfo : JObj) : Json :=
  let baseUrl := ogetD apiInfo "base_url" (.str "")
  if ¬truthy baseUrl then
    .arr (.cons (.obj (.cons "url" (.str "https://api.example.com")
      (.cons "description" (.str "API server (update this URL)") .nil))) .nil)
  else
    .arr (.cons (.obj (.cons "url" baseUrl
      (.cons "description" (.str "Production server") .nil))) .nil)

/-- One entry of `_build_parameters`. -/
def buildParam (p : Json) : Except String Json := do
  let pk ← asObj p
  let schema ← buildSchema (ogetD pk "schema" strSchema)
  let base : JObj := .cons "name" (ogetD pk "name" (.str "unknown"))
    (.cons "in" (ogetD pk "in" (.str "query"))
    (.cons "description" (ogetD pk "description" (.str ""))
    (.cons "required" (ogetD pk "required" (.bool false))
    (.cons "schema" schema .nil))))
  let base := (match oget pk "example" with
    | some v => oappend base (.cons "example" v .nil)
    | none => base)
  let base := (match oget pk "examples" with
    | some v => oappend base (.cons "examples" v .nil)
    | none => base)
  .ok (.obj base)

/-- `_build_parameters`. -/
def buildParameters (v : Json) : Except String Json := do
  let ps ← pyToList v
  let built ← mapME buildParam ps
  .ok (.arr (JArr.ofList built))

def mapObjME (f : Json → Except String Json) : JObj → Except String JObj
  | .nil => .ok .nil
  | .cons k v t => do
      let v2 ← f v
      let t2 ← mapObjME f t
      .ok (.cons k v2 t2)

/-- One media-type entry of a `content` map (used by `_build_request_body`
and `_build_responses`). -/
def buildMediaEntry (md : Json) : Except String Json := do
  let mk ← asObj md
  let schema ← buildSchema (ogetD mk "schema" objSchema)
  let base : JObj := .cons "schema" schema .nil
  let base := (match oget mk "example" with
    | some v => oappend base (.cons "example" v .nil)
    | none => base)
  let base := (match oget mk "examples" with
    | some v => oappend base (.cons "examples" v .nil)
    | none => base)
  .ok (.obj base)

/-- One header entry of a response `headers` map. -/
def buildHeaderEntry (hd : Json) : Except String Json := do
  let hk ← asObj hd
  let schema ← buildSchema (ogetD hk "schema" strSchema)
  .ok (.obj (.cons "description" (ogetD hk "description" (.str ""))
    (.cons "schema" schema .nil)))

def default200 : Json :=
  .obj (.cons "200" (.obj (.cons "description" (.str "Successful response")
    (.cons "content" (.obj (.cons "application/json"
      (.obj (.cons "schema" objSchema .nil)) .nil)) .nil))) .nil)

def buildResponsesObj : JObj → Except String JObj
  | .nil => .ok .nil
  | .cons code rd t => do
    let rk ← asObj rd
    let base : JObj :=
      .cons "description" (ogetD rk "description" (.str ("Response for status " ++ code))) .nil
    let base ← (match oget rk "headers" with
      | some hv => do
          let hk ← asObj hv
          let hs ← mapObjME buildHeaderEntry hk
          pure (oappend base (.cons "headers" (.obj hs) .nil))
      | none => pure base)
    let base ← (match oget rk "content" with
      | some cv => do
          let ck ← asObj cv
          let cs ← mapObjME buildMediaEntry ck
          pure (oappend base (.cons "content" (.obj cs) .nil))
      | none => pure base)
    let t2 ← buildResponsesObj t
    .ok (.cons code (.obj base) t2)

/-- `_build_responses`. -/
def buildResponses (v : Json) : Except String Json :=
  if ¬truthy v then .ok default200
  else do
    let rs ← asObj v
    let built ← buildResponsesObj rs
    .ok (.obj built)

/-- `_build_request_body` (only called on a truthy value). -/
def buildRequestBody (rb : Json) : Except String Json :=
  if ¬truthy rb then .ok emptyObj
  else do
    let rk ← asObj rb
    let content := ogetD rk "content" emptyObj
    let content := if ¬truthy content then
        Json.obj (.cons "application/json" (.obj (.cons "schema" objSchema .nil)) .nil)
      else content
    let ck ← asObj content
    let cs ← mapObjME buildMediaEntry ck
    .ok (.obj (.cons "description" (ogetD rk "description" (.str ""))
      (.cons "required" (ogetD rk "required" (.bool false))
      (.cons "content" (.obj cs) .nil))))

/-- `path.strip('/')`. -/
def stripSlashes (s : String) : String :=
  String.mk (((s.toList.dropWhile (· = '/')).reverse.dropWhile (· = '/')).reverse)

/-- The operation literal of `_build_paths` before the conditional keys. -/
def opBase (s d : Json) (opId : String) (tg params resps : Json) : JObj :=
  .cons "summary" s
    (.cons "description" d
    (.cons "operationId" (.str opId)
    (.cons "tags" tg
    (.cons "parameters" params
    (.cons "responses" resps .nil)))))

/-- `paths[path][method] = operation` (initializing `paths[path]` to an
empty dict when absent, as the source does). -/
def insertOp (paths : JObj) (path method : String) (op : JObj) : JObj :=
  let inner := (match oget paths path with
    | some (.obj o) => o
    | _ => JObj.nil)
  oset paths path (.obj (oset inner method (.obj op)))

/-- Processing of one endpoint by `_build_paths`.  The source assigns the
optional `requestBody` / `security` / `x-code-samples` keys one by one
after building the operation dict; since those keys are absent from the
base dict, each assignment appends at the end, which equals appending the
concatenation of the present ones. -/
def buildPathsStep (paths : JObj) (e : Json) : Except String JObj := do
  let ek ← asObj e
  let path := (match oget ek "path" with
    | some (.str s) => if s.trim ≠ "" then s else "/"
    | _ => "/")
  let method ← (match ogetD ek "method" (.str "GET") with
    | .str s => pure s.toLower
    | _ => Except.error "AttributeError")
  let safePath := (((stripSlashes path).replace "/" "_").replace "\x7b" "").replace "\x7d" ""
  let opId := (match oget ek "operation_id" with
    | some (.str s) =>
        if s.trim ≠ "" then s else method ++ "_" ++ (if safePath = "" then "root" else safePath)
    | _ => method ++ "_" ++ (if safePath = "" then "root" else safePath))
  let params ← buildParameters (ogetD ek "parameters" emptyArr)
  let resps ← buildResponses (ogetD ek "responses" emptyObj)
  let extras1 : JObj ← (if truthy (ogetD ek "request_body" .null) then do
      let rb ← buildRequestBody (ogetD ek "request_body" .null)
      pure (JObj.cons "requestBody" rb .nil)
    else pure JObj.nil)
  let extras2 : JObj := if truthy (ogetD ek "security" .null) then
      .cons "security" (ogetD ek "security" .null) .nil
    else .nil
  let extras3 : JObj := if truthy (ogetD ek "x-code-samples" .null) then
      .cons "x-code-samples" (ogetD ek "x-code-samples" .null) .nil
    else .nil
  let op := oappend (opBase (ogetD ek "summary" (.str "")) (ogetD ek "description" (.str ""))
    opId (ogetD ek "tags" emptyArr) params resps) (oappend extras1 (oappend extras2 extras3))
  .ok (insertOp paths path method op)

def buildPathsGo (paths : JObj) : List Json → Except String JObj
  | [] => .ok paths
  | e :: es => do
      let p2 ← buildPathsStep paths e
      buildPathsGo p2 es

/-- `_build_paths`. -/
def buildPaths (eps : List Json) : Except String JObj := buildPathsGo .nil eps

-- `tags_set.add(tag)`: lists and dicts are unhashable and raise TypeError.
def pyHashable : Json → Bool
  | .arr _ => false
  | .obj _ => false
  | _ => true

-- Python `==` on the hashable values of the model: `True == 1` and
-- `False == 0`, otherwise equality within a type.
def pyEqPrim : Json → Json → Bool
  | .null, .null => true
  | .bool a, .bool b => a == b
  | .bool a, .num n => (if a then (1 : Int) else 0) == n
  | .num n, .bool a => n == (if a then (1 : Int) else 0)
  | .num a, .num b => a == b
  | .str a, .str b => a == b
  | _, _ => false

-- `set.add`: a value equal (by Python `==`) to a member is dropped, so the
-- first-inserted representative is the one that survives.
def setAdd (s : List Json) (t : Json) : List Json :=
  if s.any (fun u => pyEqPrim u t) then s else s ++ [t]

def addTags (s : List Json) : List Json → Except String (List Json)
  | [] => .ok s
  | t :: ts => if pyHashable t then addTags (setAdd s t) ts else .error "TypeError"

-- `for endpoint in endpoints: for tag in endpoint.get('tags', []): ...`
def collectTags (s : List Json) : List Json → Except String (List Json)
  | [] => .ok s
  | e :: es => do
      let ek ← asObj e
      let ts ← pyToList (ogetD ek "tags" emptyArr)
      let s2 ← addTags s ts
      collectTags s2 es

def isNumTag : Json → Bool
  | .bool _ => true
  | .num _ => true
  | _ => false

def isStrTag : Json → Bool
  | .str _ => true
  | _ => false

-- The numeric value `sorted` compares bools and ints by (`True == 1`).
def tagNum : Json → Int
  | .bool b => if b then 1 else 0
  | .num n => n
  | _ => 0

def tagStr : Json → String
  | .str s => s
  | _ => ""

def insertByNum (x : Json) : List Json → List Json
  | [] => [x]
  | y :: ys => if tagNum x ≤ tagNum y then x :: y :: ys else y :: insertByNum x ys

def insertByStr (x : Json) : List Json → List Json
  | [] => [x]
  | y :: ys => if tagStr x ≤ tagStr y then x :: y :: ys else y :: insertByStr x ys

-- `sorted(tags_set)`: succeeds for at most one element (no comparison is
-- made) and for homogeneous comparable sets — all numbers (bools count as
-- ints) or all strings; any other mix of two or more elements, including a
-- None next to anything, raises TypeError.  The members are pairwise
-- distinct under `==` (they came from a set), so the sorted order is
-- total and independent of the set's iteration order.
def pySortedTags (s : List Json) : Except String (List Json) :=
  if s.length ≤ 1 then .ok s
  else if s.all isNumTag then .ok (s.foldr insertByNum [])
  else if s.all isStrTag then .ok (s.foldr insertByStr [])
  else .error "TypeError"

/-- `_extract_tags`: the sorted, de-duplicated tag set, rendered as
`[\x7b"name": tag\x7d, ...]` with the tag values kept as they are. -/
def extractTags (eps : List Json) : Except String Json := do
  let s ← collectTags [] eps
  let st ← pySortedTags s
  .ok (.arr (JArr.ofList (st.map (fun t => .obj (.cons "name" t .nil)))))

/-- `_extract_schemas_from_endpoints` (returns an empty map in the source). -/
def extractSchemasFromEndpoints (_ : List Json) : JObj := .nil

def mergeExtracted : JObj → JObj → JObj
  | built, .nil => built
  | built, .cons k v t =>
      mergeExtracted (if ohas built k then built else oappend built (.cons k v .nil)) t

/-- `_build_components`. -/
def buildComponents (components : Json) (eps : List Json) : Except String Json := do
  let hasSchemas ← pyMem "schemas" components
  let schemas ← (if hasSchemas then
      match components with
      | .obj ck =>
        (match oget ck "schemas" with
          | some (.obj sk) => mapObjME buildSchema sk
          | some _ => Except.error "AttributeError"
          | none => Except.ok JObj.nil)
      | _ => Except.error "TypeError"
    else pure JObj.nil)
  let schemas := mergeExtracted schemas (extractSchemasFromEndpoints eps)
  let hasSec ← pyMem "securitySchemes" components
  let sec ← (if hasSec then
      match components with
      | .obj ck => Except.ok (ogetD ck "securitySchemes" .null)
      | _ => Except.error "TypeError"
    else pure emptyObj)
  .ok (.obj (.cons "schemas" (.obj schemas) (.cons "securitySchemes" sec .nil)))

/-- `_build_global_security` (always returns the empty list). -/
def buildGlobalSecurity (_ : Json) : Json := .arr .nil

structure SpecParts where
  apiInfo : JObj
  servers : Json
  paths : JObj
  components : Json
  tags : Json
  securitySchemes : Json
  security : Bool
  deriving DecidableEq, Repr

/-- All `now`-independent computation of `build_openapi_spec`, in source
evaluation order. -/
def buildSpecParts (d : Json) : Except String SpecParts :=
  match d with
  | .obj dk => do
    let apiInfo ← asObj (ogetD dk "api_info" emptyObj)
    let endpoints ← pyToList (ogetD dk "endpoints" emptyArr)
    let components := ogetD dk "components" emptyObj
    let paths ← buildPaths endpoints
    let comps ← buildComponents components endpoints
    let tags ← extractTags endpoints
    let compObj ← asObj components
    let secVal := ogetD compObj "securitySchemes" .null
    .ok (SpecParts.mk apiInfo (buildServers apiInfo) paths comps tags secVal (truthy secVal))
  | _ => .error "AttributeError"

/-- The document literal of `build_openapi_spec`; `now` is the value of
`datetime.now().isoformat()`, made an explicit argument. -/
def assembleSpec (now : String) (p : SpecParts) : Json :=
  let base : JObj := .cons "openapi" (.str "3.1.0")
    (.cons "info" (.obj (.cons "title" (ogetD p.apiInfo "name" (.str "Extracted API"))
      (.cons "version" (ogetD p.apiInfo "version" (.str "1.0.0"))
      (.cons "description" (ogetD p.apiInfo "description" (.str "API extracted from documentation"))
      (.cons "x-extracted-date" (.str now)
      (.cons "x-source-url" (ogetD p.apiInfo "source_url" (.str "")) .nil))))))
    (.cons "servers" p.servers
    (.cons "paths" (.obj p.paths)
    (.cons "components" p.components
    (.cons "tags" p.tags .nil)))))
  if p.security then .obj (oappend base (.cons "security" (buildGlobalSecurity p.securitySchemes) .nil))
  else .obj base

/-- `build_openapi_spec`, with the ambient clock reading as an argument. -/
def buildOpenapiSpec (now : String) (d : Json) : Except String Json :=
  (buildSpecParts d).map (assembleSpec now)

def eraseXDateObj : JObj → JObj
  | .nil => .nil
  | .cons k v t =>
    if k = "info" then
      .cons k (match v with
        | .obj ik => .obj (oremove ik "x-extracted-date")
        | w => w) (eraseXDateObj t)
    else .cons k v (eraseXDateObj t)

/-- Removal of `info.x-extracted-date` from a document. -/
def eraseXDate : Json → Json
  | .obj kvs => .obj (eraseXDateObj kvs)
  | j => j

-- `str.startswith(pre)`, implemented over the character list.
def charsPre : List Char → List Char → Bool
  | _, [] => true
  | [], _ :: _ => false
  | c :: cs, p :: ps => c == p && charsPre cs ps

def pyStartswith (s pre : String) : Bool := charsPre s.toList pre.toList

def httpMethods : List String :=
  ["get", "post", "put", "delete", "patch", "head", "options", "trace"]

def validateOpsLoop (pth : String) : JObj → Except String (List String)
  | .nil => .ok []
  | .cons mth op t =>
    if mth ∈ httpMethods then do
      let e1 := if ¬op.isObjB then ["Invalid operation for " ++ mth.toUpper ++ " " ++ pth] else []
      let hasResp ← pyMem "responses" op
      let e2 := if ¬hasResp then ["Missing responses for " ++ mth.toUpper ++ " " ++ pth] else []
      let rest ← validateOpsLoop pth t
      .ok (e1 ++ e2 ++ rest)
    else validateOpsLoop pth t

def validatePathsLoop : JObj → Except String (List String)
  | .nil => .ok []
  | .cons pth v t =>
    match v with
    | .obj inner => do
        let es ← validateOpsLoop pth inner
        let rest ← validatePathsLoop t
        .ok (es ++ rest)
    | _ => do
        let rest ← validatePathsLoop t
        .ok (("Invalid path item for " ++ pth) :: rest)

/-- `validate_openapi_spec` (the OpenAPI Shape Checker).  Its inputs are
dicts; Python raising inside it is modelled as `Except.error`. -/
def validateOpenapiSpec (spec : Json) : Except String (Bool × List String) :=
  match spec with
  | .obj kvs => do
    let e1 ← (match oget kvs "openapi" with
      | none => Except.ok ["Missing " ++ sQuote ++ "openapi" ++ sQuote ++ " field"]
      | some (.str s) =>
          Except.ok (if pyStartswith s "3." then [] else ["Invalid OpenAPI version: " ++ s])
      | some _ => Except.error "AttributeError")
    let e2 ← (match oget kvs "info" with
      | none => Except.ok ["Missing " ++ sQuote ++ "info" ++ sQuote ++ " field"]
      | some iv => do
          let hasT ← pyMem "title" iv
          let hasV ← pyMem "version" iv
          Except.ok ((if ¬hasT then ["Missing " ++ sQuote ++ "info.title" ++ sQuote] else []) ++
            (if ¬hasV then ["Missing " ++ sQuote ++ "info.version" ++ sQuote] else [])))
    let e3 := if ¬ohas kvs "paths" then ["Missing " ++ sQuote ++ "paths" ++ sQuote ++ " field"] else []
    let e4 ← (match ogetD kvs "paths" emptyObj with
      | .obj ps => validatePathsLoop ps
      | _ => Except.error "AttributeError")
    let errs := e1 ++ e2 ++ e3 ++ e4
    .ok (errs.isEmpty, errs)
  | _ => .error "TypeError"

/-! ## crawler.py -/

/-- The mutable accumulator `self.crawl_data` of `APICrawler`. -/
structure CrawlState where
  endpoints : List Json
  schemas : JObj
  auth : Json
  api_info : Json
  pages_analyzed : List (String × String)
  deriving DecidableEq, Repr

def initCrawlState : CrawlState :=
  CrawlState.mk [] .nil .null emptyObj []

/-- `f"{endpoint.get('method')}:{endpoint.get('path')}"`; `.get` on a
non-dict endpoint raises. -/
def endpointKey : Json → Except String String
  | .obj kvs => .ok (pyStr (ogetD kvs "method" .null) ++ ":" ++ pyStr (ogetD kvs "path" .null))
  | _ => .error "AttributeError"

def keysOfE (eps : List Json) : Except String (List String) :=
  mapME endpointKey eps

-- Parameter names become dict keys in `_merge_endpoints`; an unhashable
-- name (list/dict) raises in Python.
def hashable : Json → Bool
  | .arr _ => false
  | .obj _ => false
  | _ => true

/-- One step of `{p['name']: p for p in existing.get('parameters', [])}`
(and of the following update loop): key by name, overwrite an existing
name in place, append a new one. -/
def upsertByKey (acc : List (Json × Json)) (key : Json) (v : Json) : List (Json × Json) :=
  match acc with
  | [] => [(key, v)]
  | (k0, v0) :: t => if k0 = key then (k0, v) :: t else (k0, v0) :: upsertByKey t key v

def lookupByKey (acc : List (Json × Json)) (key : Json) : Option Json :=
  match acc with
  | [] => none
  | (k0, v0) :: t => if k0 = key then some v0 else lookupByKey t key

/-- `p['name']` with the hashability requirement for use as a dict key. -/
def paramName (p : Json) : Except String Json :=
  match p with
  | .obj pk =>
    (match oget pk "name" with
      | some n => if hashable n then .ok n else .error "TypeError"
      | none => .error "KeyError")
  | _ => .error "TypeError"

def paramsDictOf (acc : List (Json × Json)) : List Json → Except String (List (Json × Json))
  | [] => .ok acc
  | p :: ps => do
      let n ← paramName p
      paramsDictOf (upsertByKey acc n p) ps

-- `existing_params[param['name']].update(param)`: both are dicts here;
-- a non-dict update argument is collapsed to a TypeError.
def updateParam (old new : Json) : Except String Json :=
  match old, new with
  | .obj ok2, .obj nk => .ok (.obj (odictUpdate ok2 nk))
  | _, _ => .error "TypeError"

def mergeParamLoop (acc : List (Json × Json)) : List Json → Except String (List (Json × Json))
  | [] => .ok acc
  | p :: ps => do
      let n ← paramName p
      (match lookupByKey acc n with
        | some old => do
            let merged ← updateParam old p
            mergeParamLoop (upsertByKey acc n merged) ps
        | none => mergeParamLoop (upsertByKey acc n p) ps)

/-- The `key == 'parameters'` branch of `_merge_endpoints`. -/
def mergeParams (exParams newParams : Json) : Except String JArr := do
  let exList ← pyToList exParams
  let acc ← paramsDictOf [] exList
  let newList ← pyToList newParams
  let acc2 ← mergeParamLoop acc newList
  .ok (JArr.ofList (acc2.map Prod.snd))

/-- The `for key, value in new.items()` loop of `_merge_endpoints`,
accumulating into `merged` (initially `existing.copy()`). -/
def mergeFieldsLoop (exKvs : JObj) (acc : JObj) : JObj → Except String JObj
  | .nil => .ok acc
  | .cons k v t =>
    if k = "parameters" then do
      let params ← mergeParams (ogetD exKvs "parameters" emptyArr) v
      mergeFieldsLoop exKvs (oset acc "parameters" (.arr params)) t
    else if ¬truthy (ogetD exKvs k .null) ∧ truthy v then
      mergeFieldsLoop exKvs (oset acc k v) t
    else if truthy v ∧ (pyStr v).length > (pyStr (ogetD exKvs k (.str ""))).length then
      mergeFieldsLoop exKvs (oset acc k v) t
    else
      mergeFieldsLoop exKvs acc t

/-- `_merge_endpoints`. -/
def mergeEndpoints (ex new : Json) : Except String Json :=
  match ex, new with
  | .obj exKvs, .obj newKvs => (mergeFieldsLoop exKvs exKvs newKvs).map Json.obj
  | _, _ => .error "AttributeError"

/-- One iteration of the endpoint loop in the `llm_extraction` branch of
`_merge_data`: route the incoming endpoint by its METHOD:PATH key. -/
def mergeEndpointStep (eps : List Json) (e : Json) : Except String (List Json) := do
  let key ← endpointKey e
  let keys ← keysOfE eps
  if key ∈ keys then do
    let idx := keys.indexOf key
    (match eps.get? idx with
      | some ex => do
          let merged ← mergeEndpoints ex e
          .ok (eps.set idx merged)
      | none => .error "IndexError")
  else
    .ok (eps ++ [e])

def processEndpoints (eps : List Json) : List Json → Except String (List Json)
  | [] => .ok eps
  | e :: es => do
      let eps2 ← mergeEndpointStep eps e
      processEndpoints eps2 es

-- `dict.update` with a non-dict argument is collapsed to a TypeError
-- (Python accepts only mappings or iterables of key/value pairs there;
-- the empty iterable case is kept).
def pyDictUpdate (d : JObj) : Json → Except String JObj
  | .obj u => .ok (odictUpdate d u)
  | .arr .nil => .ok d
  | _ => .error "TypeError"

/-- Schema merging of the `llm_extraction` branch: same-name schemas merge
at the `fields` level, new names are added wholesale. -/
def mergeSchemaStep (schemas : JObj) (name : String) (sd : Json) : Except String JObj :=
  match oget schemas name with
  | some (.obj ek) =>
    (match oget ek "fields" with
      | some (.obj fk) => do
          let sdk ← asObj sd
          let fk2 ← pyDictUpdate fk (ogetD sdk "fields" emptyObj)
          .ok (oset schemas name (.obj (oset ek "fields" (.obj fk2))))
      | some _ => .error "AttributeError"
      | none => .error "KeyError")
  | some _ => .error "TypeError"
  | none => .ok (oappend schemas (.cons name sd .nil))

def mergeSchemasLoop (schemas : JObj) : JObj → Except String JObj
  | .nil => .ok schemas
  | .cons name sd t => do
      let s2 ← mergeSchemaStep schemas name sd
      mergeSchemasLoop s2 t

/-- `_merge_data` of crawler.py. -/
def mergeData (st : CrawlState) (newData : Json) (url method : String) :
    Except String CrawlState := do
  let st := CrawlState.mk st.endpoints st.schemas st.auth st.api_info
    (st.pages_analyzed ++ [(url, method)])
  if method = "openapi" then do
    let nd ← asObj newData
    let newEps ← pyToList (ogetD nd "endpoints" emptyArr)
    let schemas2 ← pyDictUpdate st.schemas (ogetD nd "schemas" emptyObj)
    let auth2 := if truthy (ogetD nd "auth" .null) then ogetD nd "auth" .null else st.auth
    .ok (CrawlState.mk (st.endpoints ++ newEps) schemas2 auth2
      (ogetD nd "info" emptyObj) st.pages_analyzed)
  else do
    let nd ← asObj newData
    let apiInfo2 ← (if truthy (ogetD nd "api_info" .null) then do
        let cur ← asObj st.api_info
        let up ← asObj (ogetD nd "api_info" .null)
        pure (Json.obj (odictUpdate cur up))
      else pure st.api_info)
    let newEps ← pyToList (ogetD nd "endpoints" emptyArr)
    let endpoints2 ← processEndpoints st.endpoints newEps
    let schemasIn ← asObj (ogetD nd "schemas" emptyObj)
    let schemas2 ← mergeSchemasLoop st.schemas schemasIn
    let auth2 := if ¬truthy st.auth ∧ truthy (ogetD nd "authentication" .null) then
        ogetD nd "authentication" .null
      else st.auth
    .ok (CrawlState.mk endpoints2 schemas2 auth2 apiInfo2 st.pages_analyzed)

/-! ## contracts.py -/

/-- Quote a name with single quotes, as the f-string messages do. -/
def q (s : String) : String := sQuote ++ s ++ sQuote

/-- `_is_non_empty_string`. -/
def isNonEmptyString : Json → Bool
  | .str s => s.trim ≠ ""
  | _ => false

/-- Membership in `CONFIDENCE_LEVELS`. -/
def confOk : Json → Bool
  | .str s => s = "HIGH" || s = "MEDIUM" || s = "LOW"
  | _ => false

def isListOfStrings : Json → Bool
  | .arr l => l.toList.all Json.isStrB
  | _ => false

/-- `_validate_list_of_strings`. -/
def validateListOfStrings (kvs : JObj) (key : String) (required : Bool) : List String :=
  match oget kvs key with
  | none => if required then ["Missing required key: " ++ q key] else []
  | some v => if ¬isListOfStrings v then [q key ++ " must be a list of strings"] else []

def emPrefix (i : Nat) : String := "entity_mappings[" ++ toString i ++ "]"
def fmPrefix (i j : Nat) : String := emPrefix i ++ ".field_mappings[" ++ toString j ++ "]"

/-- `sorted(CONFIDENCE_LEVELS)` rendered as Python does. -/
def confListStr : String :=
  "[" ++ q "HIGH" ++ ", " ++ q "LOW" ++ ", " ++ q "MEDIUM" ++ "]"

def fieldMapErrs (i j : Nat) (fm : Json) : List String :=
  match fm with
  | .obj fk =>
    (if ¬isNonEmptyString (ogetD fk "api_a_field" .null) then
        [q (fmPrefix i j ++ ".api_a_field") ++ " must be a non-empty string"] else []) ++
    (if ¬isNonEmptyString (ogetD fk "api_b_field" .null) then
        [q (fmPrefix i j ++ ".api_b_field") ++ " must be a non-empty string"] else []) ++
    (if ¬confOk (ogetD fk "confidence" .null) then
        [q (fmPrefix i j ++ ".confidence") ++ " must be one of " ++ confListStr] else []) ++
    (let tr := ogetD fk "transformation" .null
     if tr ≠ .null ∧ ¬tr.isStrB ∧ ¬tr.isObjB then
        [q (fmPrefix i j ++ ".transformation") ++ " must be null, string, or object"] else [])
  | _ => [q (fmPrefix i j) ++ " must be an object"]

def fieldMapsLoop (i : Nat) (j : Nat) : List Json → List String
  | [] => []
  | fm :: rest => fieldMapErrs i j fm ++ fieldMapsLoop i (j + 1) rest

def entityMapErrs (i : Nat) (m : Json) : List String :=
  match m with
  | .obj mk =>
    (if ¬isNonEmptyString (ogetD mk "api_a_entity" .null) then
        [q (emPrefix i ++ ".api_a_entity") ++ " must be a non-empty string"] else []) ++
    (if ¬isNonEmptyString (ogetD mk "api_b_entity" .null) then
        [q (emPrefix i ++ ".api_b_entity") ++ " must be a non-empty string"] else []) ++
    (if ¬confOk (ogetD mk "confidence" .null) then
        [q (emPrefix i ++ ".confidence") ++ " must be one of " ++ confListStr] else []) ++
    (match ogetD mk "field_mappings" .null with
      | .arr l => fieldMapsLoop i 0 l.toList
      | _ => [q (emPrefix i ++ ".field_mappings") ++ " must be a list"])
  | _ => [q (emPrefix i) ++ " must be an object"]

def entityMapsLoop (i : Nat) : List Json → List String
  | [] => []
  | m :: rest => entityMapErrs i m ++ entityMapsLoop (i + 1) rest

/-- `validate_mapping_result`. -/
def validateMappingResult (data : Json) : Bool × List String :=
  match data with
  | .obj kvs =>
    let e1 := (match ogetD kvs "entity_mappings" .null with
      | .arr l => entityMapsLoop 0 l.toList
      | _ => [q "entity_mappings" ++ " must be a list"])
    let errs := e1 ++ validateListOfStrings kvs "unmapped_entities_a" true
      ++ validateListOfStrings kvs "unmapped_entities_b" true
      ++ validateListOfStrings kvs "warnings" false
    (errs.isEmpty, errs)
  | _ => (false, ["Mapping result payload must be an object"])

def flowErrs (i : Nat) (f : Json) : List String :=
  match f with
  | .obj fk =>
    (if ¬isNonEmptyString (ogetD fk "name" .null) then
        [q ("flows[" ++ toString i ++ "].name") ++ " must be a non-empty string"] else []) ++
    (if ¬isNonEmptyString (ogetD fk "direction" .null) then
        [q ("flows[" ++ toString i ++ "].direction") ++ " must be a non-empty string"] else []) ++
    (if ¬isNonEmptyString (ogetD fk "trigger" .null) then
        [q ("flows[" ++ toString i ++ "].trigger") ++ " must be a non-empty string"] else []) ++
    (if ¬(ogetD fk "steps" .null).isArrB then
        [q ("flows[" ++ toString i ++ "].steps") ++ " must be a list"] else []) ++
    (if ¬(ogetD fk "field_map" .null).isArrB then
        [q ("flows[" ++ toString i ++ "].field_map") ++ " must be a list"] else []) ++
    (if ¬(ogetD fk "error_handling" .null).isObjB then
        [q ("flows[" ++ toString i ++ "].error_handling") ++ " must be an object"] else []) ++
    (if ¬(ogetD fk "auth" .null).isObjB then
        [q ("flows[" ++ toString i ++ "].auth") ++ " must be an object"] else []) ++
    (if ¬(ogetD fk "observability" .null).isObjB then
        [q ("flows[" ++ toString i ++ "].observability") ++ " must be an object"] else [])
  | _ => [q ("flows[" ++ toString i ++ "]") ++ " must be an object"]

def flowsLoop (i : Nat) : List Json → List String
  | [] => []
  | f :: rest => flowErrs i f ++ flowsLoop (i + 1) rest

/-- `validate_integration_plan`. -/
def validateIntegrationPlan (data : Json) : Bool × List String :=
  match data with
  | .obj kvs =>
    let e0 := if ¬(ogetD kvs "summary" .null).isObjB then [q "summary" ++ " must be an object"] else []
    let e1 := (match ogetD kvs "flows" .null with
      | .arr l => flowsLoop 0 l.toList
      | _ => [q "flows" ++ " must be a list"])
    let errs := e0 ++ e1 ++ validateListOfStrings kvs "open_questions" true
      ++ validateListOfStrings kvs "risks" true
      ++ validateListOfStrings kvs "implementation_backlog" true
    (errs.isEmpty, errs)
  | _ => (false, ["Integration plan payload must be an object"])

/-! ## mapper.py -/

def ofStrList : List String → JArr
  | [] => .nil
  | s :: t => .cons (.str s) (ofStrList t)

/-- `_normalize_mapping_result`: default the four optional keys. -/
def normalizeMappingResult (kvs : JObj) : JObj :=
  osetdefault (osetdefault (osetdefault (osetdefault kvs
    "entity_mappings" emptyArr) "unmapped_entities_a" emptyArr)
    "unmapped_entities_b" emptyArr) "warnings" emptyArr

/-- `_default_mapping_result`. -/
def defaultMappingResult (warnings : List String) : Json :=
  .obj (.cons "entity_mappings" emptyArr
    (.cons "unmapped_entities_a" emptyArr
    (.cons "unmapped_entities_b" emptyArr
    (.cons "warnings" (.arr (ofStrList warnings)) .nil))))

/-- The acceptance path of `generate_mappings` applied to the parsed
proposal value `raw` (`result["parsed"]`): a non-dict raw value and a
dict failing the contract both yield the safe default artifact; a dict
passing the contract is returned normalized. -/
def acceptMappingProposal (raw : Json) : Json :=
  match raw with
  | .obj kvs =>
    let n := normalizeMappingResult kvs
    let r := validateMappingResult (.obj n)
    if r.1 then .obj n
    else defaultMappingResult ("Mapping payload failed contract validation" :: r.2)
  | _ => defaultMappingResult ["LLM response did not produce valid JSON mapping payload"]

/-! ## plan_generator.py -/

/-- `_human_direction`; `answers` values are used as dict keys, so an
unhashable value raises. -/
def humanDirection : Json → Except String String
  | .str "a_to_b" => .ok "A->B"
  | .str "b_to_a" => .ok "B->A"
  | .str "bidirectional" => .ok "A<->B"
  | .str _ => .ok "A->B"
  | .arr _ => .error "TypeError"
  | .obj _ => .error "TypeError"
  | _ => .ok "A->B"

def defaultRetryPolicy : Json :=
  .obj (.cons "max_retries" (.num 3) (.cons "backoff" (.str "exponential") .nil))

def errorHandlingOf (ak : JObj) : Json :=
  .obj (.cons "strategy" (ogetD ak "error_strategy" (.str "retry_then_dlq"))
    (.cons "retry_policy" (ogetD ak "retry_policy" defaultRetryPolicy) .nil))

def authOf (ak : JObj) : Json :=
  .obj (.cons "source_of_truth" (ogetD ak "source_of_truth" (.str "api_a"))
    (.cons "idempotency_required" (.bool (truthy (ogetD ak "idempotency" (.bool true)))) .nil))

/-- One `field_map` line: `"{a} -> {b} ({confidence})[ | transform: {t}]"`. -/
def fieldMapLine (f : Json) : Except String String :=
  match f with
  | .obj fk =>
    let aField := ogetD fk "api_a_field" (.str "")
    let bField := ogetD fk "api_b_field" (.str "")
    let conf := ogetD fk "confidence" (.str "")
    let tr := ogetD fk "transformation" .null
    let trText := if tr = .null ∨ tr = .str "" ∨ tr = emptyObj then ""
      else " | transform: " ++ pyStr tr
    .ok (pyStr aField ++ " -> " ++ pyStr bField ++ " (" ++ pyStr conf ++ ")" ++ trText)
  | _ => .error "AttributeError"

/-- One flow per entity mapping in `_build_flows`. -/
def flowOfMapping (dir : String) (trigger : Json) (ak : JObj) (m : Json) : Except String Json :=
  match m with
  | .obj mk => do
    let aEnt := ogetD mk "api_a_entity" (.str "SourceEntity")
    let bEnt := ogetD mk "api_b_entity" (.str "TargetEntity")
    let fml ← pyToList (ogetD mk "field_mappings" emptyArr)
    let lines ← mapME fieldMapLine fml
    .ok (.obj (.cons "name" (.str ("Sync " ++ pyStr aEnt ++ " to " ++ pyStr bEnt))
      (.cons "direction" (.str dir)
      (.cons "trigger" trigger
      (.cons "steps" (.arr (ofStrList
        ["Capture " ++ pyStr aEnt ++ " change event",
         "Apply field transformations",
         "Upsert " ++ pyStr bEnt ++ " in destination API",
         "Record outcome and retry on transient failures"]))
      (.cons "field_map" (.arr (ofStrList lines))
      (.cons "error_handling" (errorHandlingOf ak)
      (.cons "auth" (authOf ak)
      (.cons "observability" (.obj (.cons "metrics" (.arr (ofStrList
          ["sync_success_rate", "sync_error_rate", "retry_count", "latency_p95"]))
        (.cons "owner" (ogetD ak "ownership_notes" (.str "")) .nil))) .nil)))))))))
  | _ => .error "AttributeError"

/-- The single generic fallback flow of `_build_flows`. -/
def genericFlow (dir : String) (trigger : Json) (ak : JObj) : Json :=
  .obj (.cons "name" (.str "Initial generic synchronization flow")
    (.cons "direction" (.str dir)
    (.cons "trigger" trigger
    (.cons "steps" (.arr (ofStrList
      ["Identify source events",
       "Transform payload to destination schema",
       "Call destination API",
       "Handle retry and observability hooks"]))
    (.cons "field_map" emptyArr
    (.cons "error_handling" (errorHandlingOf ak)
    (.cons "auth" (authOf ak)
    (.cons "observability" (.obj (.cons "metrics" (.arr (ofStrList
        ["sync_success_rate", "sync_error_rate", "latency_p95"]))
      (.cons "owner" (ogetD ak "ownership_notes" (.str "")) .nil))) .nil))))))))

/-- `_build_flows`. -/
def buildFlows (mk ak : JObj) : Except String (List Json) := do
  let ems ← pyToList (ogetD mk "entity_mappings" emptyArr)
  let dir ← humanDirection (ogetD ak "sync_direction" (.str "a_to_b"))
  let trigger := ogetD ak "trigger_mode" (.str "event")
  let flows ← mapME (flowOfMapping dir trigger ak) ems
  if flows.isEmpty then .ok [genericFlow dir trigger ak] else .ok flows

/-- `_build_open_questions`. -/
def buildOpenQuestions (mk : JObj) : Except String (List Json) := do
  let ua ← pyToList (ogetD mk "unmapped_entities_a" emptyArr)
  let ub ← pyToList (ogetD mk "unmapped_entities_b" emptyArr)
  .ok (ua.map (fun e => Json.str
      ("How should API A entity " ++ sQuote ++ pyStr e ++ sQuote ++ " be represented in API B?"))
    ++ ub.map (fun e => Json.str
      ("Should API B entity " ++ sQuote ++ pyStr e ++ sQuote ++ " be sourced, ignored, or reverse-synced?")))

def fieldRiskLoop : List Json → Except String (List Json)
  | [] => .ok []
  | f :: rest => do
      let fk ← asObj f
      let r := if ogetD fk "confidence" .null = .str "LOW" then
          [Json.str ("Low confidence field mapping: " ++ pyStr (ogetD fk "api_a_field" .null)
            ++ " -> " ++ pyStr (ogetD fk "api_b_field" .null))]
        else []
      let rest2 ← fieldRiskLoop rest
      .ok (r ++ rest2)

def entityRiskLoop : List Json → Except String (List Json)
  | [] => .ok []
  | m :: rest => do
      let mk ← asObj m
      let e1 := if ogetD mk "confidence" .null = .str "LOW" then
          [Json.str ("Low confidence entity mapping: " ++ pyStr (ogetD mk "api_a_entity" .null)
            ++ " -> " ++ pyStr (ogetD mk "api_b_entity" .null))]
        else []
      let fml ← pyToList (ogetD mk "field_mappings" emptyArr)
      let e2 ← fieldRiskLoop fml
      let rest2 ← entityRiskLoop rest
      .ok (e1 ++ e2 ++ rest2)

/-- `_build_risks`. -/
def buildRisks (mk : JObj) : Except String (List Json) := do
  let ws ← pyToList (ogetD mk "warnings" emptyArr)
  let ems ← pyToList (ogetD mk "entity_mappings" emptyArr)
  let extra ← entityRiskLoop ems
  let risks := ws ++ extra
  .ok (if risks.isEmpty then [.str "No explicit risks detected from mapping stage"] else risks)

/-- `_build_backlog`. -/
def buildBacklog (ak : JObj) : List Json :=
  [.str "Implement source connector authentication and token refresh",
   .str "Implement destination connector upsert operations",
   .str "Build transformation layer for mapped fields",
   .str "Implement retry/dead-letter behavior",
   .str ("Configure monitoring ownership: " ++ pyStr (ogetD ak "ownership_notes" (.str "TBD")))]

/-- `_api_title`. -/
def apiTitle (spec : Json) (fallback : String) : Except String Json :=
  match spec with
  | .obj sk =>
    (match ogetD sk "info" emptyObj with
      | .obj ik => .ok (ogetD ik "title" (.str fallback))
      | _ => .error "AttributeError")
  | _ => .error "AttributeError"

-- The literal separator of `summary.name` in plan_generator.py line 26:
-- the three characters U+00E2 U+2020 U+201D (a mojibake rendering of the
-- arrow U+2194), not an ASCII "<->".
def nameSep : String := " â†” "

/-- The `summary` literal of `generate_integration_plan`. -/
def planSummary (tA tB : Json) (mk ak : JObj) : Except String Json := do
  let emLen ← pyLen (ogetD mk "entity_mappings" emptyArr)
  .ok (.obj (.cons "name" (.str (pyStr tA ++ nameSep ++ pyStr tB ++ " Integration Plan"))
    (.cons "goal" (ogetD ak "goal" (.str "sync"))
    (.cons "direction" (ogetD ak "sync_direction" (.str "a_to_b"))
    (.cons "source_of_truth" (ogetD ak "source_of_truth" (.str "api_a"))
    (.cons "entities_mapped" (.num emLen) .nil))))))

/-- The `plan` literal of `generate_integration_plan` (lines 24-36). -/
def planDict (tA tB : Json) (mk ak : JObj) (flows qs risks : List Json) : Except String Json := do
  let summary ← planSummary tA tB mk ak
  .ok (.obj (.cons "summary" summary
    (.cons "flows" (.arr (JArr.ofList flows))
    (.cons "open_questions" (.arr (JArr.ofList qs))
    (.cons "risks" (.arr (JArr.ofList risks))
    (.cons "implementation_backlog" (.arr (JArr.ofList (buildBacklog ak))) .nil))))))

/-- `_fallback_plan`. -/
def fallbackPlan (errors : List String) : Json :=
  let flow : Json := .obj (.cons "name" (.str "Fallback flow")
    (.cons "direction" (.str "A->B")
    (.cons "trigger" (.str "manual")
    (.cons "steps" (.arr (ofStrList ["Review validation errors", "Fix upstream artifacts"]))
    (.cons "field_map" emptyArr
    (.cons "error_handling" (.obj (.cons "strategy" (.str "halt_pipeline")
      (.cons "validation_errors" (.arr (ofStrList errors)) .nil)))
    (.cons "auth" emptyObj
    (.cons "observability" (.obj (.cons "metrics" (.arr (ofStrList ["validation_error_count"])) .nil))
      .nil))))))))
  .obj (.cons "summary" (.obj (.cons "name" (.str "Integration Plan (Fallback)") .nil))
    (.cons "flows" (.arr (.cons flow .nil))
    (.cons "open_questions" (.arr (ofStrList ["Resolve integration plan validation errors before rollout"]))
    (.cons "risks" (.arr (ofStrList ["Plan generation produced invalid structure"]))
    (.cons "implementation_backlog" (.arr (ofStrList ["Correct upstream mapping/answers payload"])) .nil)))))

/-- `generate_integration_plan`. -/
def generateIntegrationPlan (oa ob m a : Json) : Except String Json := do
  let tA ← apiTitle oa "API A"
  let tB ← apiTitle ob "API B"
  let mk ← asObj m
  let ak ← asObj a
  let flows ← buildFlows mk ak
  let risks ← buildRisks mk
  let qs ← buildOpenQuestions mk
  let plan ← planDict tA tB mk ak flows qs risks
  let v := validateIntegrationPlan plan
  .ok (.obj (.cons "success" (.bool v.1)
    (.cons "data" (if v.1 then plan else fallbackPlan v.2)
    (.cons "error" (if v.1 then .null else .str "Generated plan failed validation")
    (.cons "validation_errors" (.arr (ofStrList (if v.1 then [] else v.2))) .nil)))))

/-- Key access on a JSON object value (used in theorem statements). -/
def jget (j : Json) (k : String) : Option Json :=
  match j with
  | .obj kvs => oget kvs k
  | _ => none

/-! ## General lemmas -/

instance : DecidableEq (Except String Json) := fun a b =>
  match a, b with
  | .ok x, .ok y =>
    if h : x = y then isTrue (by rw [h]) else isFalse (by intro hh; cases hh; exact h rfl)
  | .error x, .error y =>
    if h : x = y then isTrue (by rw [h]) else isFalse (by intro hh; cases hh; exact h rfl)
  | .ok _, .error _ => isFalse (by intro hh; cases hh)
  | .error _, .ok _ => isFalse (by intro hh; cases hh)

theorem except_bind_ok {ε α β : Type} (a : α) (f : α → Except ε β) :
    (Except.ok a).bind f = f a := rfl

theorem except_bind_ok2 {ε : Type} {α β : Type} (a : α) (f : α → Except ε β) :
    (Except.ok a : Except ε α) >>= f = f a := rfl

theorem oget_oappend (k : String) : ∀ (p q : JObj),
    oget (oappend p q) k = (match oget p k with
      | some v => some v
      | none => oget q k)
  | .nil, q => by simp [oappend, oget]
  | .cons k0 v0 t, q => by
    by_cases h : k0 = k <;> simp [oappend, oget, h, oget_oappend k t q]

theorem oget_oset (k : String) (v : Json) (key : String) : ∀ (d : JObj),
    oget (oset d k v) key = if key = k then some v else oget d key
  | .nil => by
    by_cases h : k = key
    · subst h; simp [oset, oget]
    · have h2 : ¬key = k := fun hh => h hh.symm
      simp [oset, oget, h, h2]
  | .cons k0 w t => by
    by_cases h0 : k0 = k
    · subst h0
      by_cases h : k0 = key
      · subst h; simp [oset, oget]
      · have h2 : ¬key = k0 := fun hh => h hh.symm
        simp [oset, oget, h, h2]
    · by_cases h : k0 = key
      · subst h
        have h2 : ¬k0 = k := h0
        simp [oset, oget, h2]
      · simp [oset, h0, oget, h, oget_oset k v key t]

theorem oget_none_of_not_mem_okeys (key : String) :
    ∀ (t : JObj), key ∉ okeys t → oget t key = none
  | .nil, _ => by simp [oget]
  | .cons k1 v1 t1, h => by
    simp only [okeys, List.mem_cons, not_or] at h
    have h1 : ¬k1 = key := fun hh => h.1 hh.symm
    simp only [oget, h1, if_false]
    exact oget_none_of_not_mem_okeys key t1 h.2


theorem oget_odictUpdate (key : String) : ∀ (u : JObj) (d : JObj),
    (okeys u).Nodup →
    oget (odictUpdate d u) key = (match oget u key with
      | some v => some v
      | none => oget d key)
  | .nil, d, _ => by simp [odictUpdate, oget]
  | .cons k0 v0 t, d, hu => by
    simp only [okeys, List.nodup_cons] at hu
    rw [odictUpdate, oget_odictUpdate key t _ hu.2]
    by_cases h : k0 = key
    · subst h
      have ht : oget t k0 = none := oget_none_of_not_mem_okeys k0 t hu.1
      simp [ht, oget, oget_oset]
    · cases hh : oget t key with
      | none =>
        have h2 : ¬key = k0 := fun hh2 => h hh2.symm
        simp [oget, h, hh, oget_oset, h2]
      | some w => simp [oget, h, hh]

theorem ofStrList_all_str (ws : List String) :
    (ofStrList ws).toList.all Json.isStrB = true := by
  induction ws with
  | nil => rfl
  | cons w t ih => simp [ofStrList, JArr.toList, Json.isStrB, ih]

theorem mapME_ok_of_forall {f : α → Except String β} :
    ∀ (l : List α), (∀ x ∈ l, ∃ y, f x = .ok y) →
      ∃ ys, mapME f l = .ok ys ∧ ys.length = l.length
  | [], _ => ⟨[], rfl, rfl⟩
  | x :: xs, h => by
    obtain ⟨y, hy⟩ := h x (by simp)
    obtain ⟨ys, hys, hlen⟩ := mapME_ok_of_forall xs (fun a ha => h a (by simp [ha]))
    refine ⟨y :: ys, ?_, by simp [hlen]⟩
    simp only [mapME, hy, hys]
    rfl

/-! ## C2: mapping-proposal acceptance round-trip -/

theorem validateMappingResult_default (ws : List String) :
    validateMappingResult (defaultMappingResult ws) = (true, []) := by
  simp [validateMappingResult, defaultMappingResult, ogetD, oget, emptyArr,
    entityMapsLoop, validateListOfStrings, isListOfStrings, JArr.toList,
    ofStrList_all_str]

theorem validateMappingResult_fst_true (j : Json) (hb : (validateMappingResult j).1 = true) :
    validateMappingResult j = (true, []) := by
  cases j with
  | obj kvs =>
    have hfst : (validateMappingResult (.obj kvs)).1
        = (validateMappingResult (.obj kvs)).2.isEmpty := rfl
    have h2 : (validateMappingResult (.obj kvs)).2 = [] :=
      List.isEmpty_iff.mp (hfst.symm.trans hb)
    calc validateMappingResult (.obj kvs)
        = ((validateMappingResult (.obj kvs)).1, (validateMappingResult (.obj kvs)).2) := rfl
      _ = (true, []) := by rw [hb, h2]
  | null => simp [validateMappingResult] at hb
  | bool b => simp [validateMappingResult] at hb
  | num n => simp [validateMappingResult] at hb
  | str s => simp [validateMappingResult] at hb
  | arr xs => simp [validateMappingResult] at hb

/-- C2: for every raw proposal value, the mapping-result artifact returned
as data by the acceptance path (the proposal with the four optional keys
defaulted when it validates, otherwise the safe empty default carrying the
validation errors as warnings) always satisfies
`validate_contract("mapping_result", ·) = (true, [])`. -/
theorem c2_accept_mapping_proposal_roundtrip (raw : Json) :
    validateMappingResult (acceptMappingProposal raw) = (true, []) := by
  cases raw with
  | obj kvs =>
    by_cases hr : (validateMappingResult (.obj (normalizeMappingResult kvs))).1 = true
    · simpa [acceptMappingProposal, hr] using validateMappingResult_fst_true _ hr
    · simp only [acceptMappingProposal, hr]
      simp only [Bool.not_eq_true] at hr
      simp [hr, validateMappingResult_default]
  | null => simpa [acceptMappingProposal] using validateMappingResult_default _
  | bool b => simpa [acceptMappingProposal] using validateMappingResult_default _
  | num n => simpa [acceptMappingProposal] using validateMappingResult_default _
  | str s => simpa [acceptMappingProposal] using validateMappingResult_default _
  | arr xs => simpa [acceptMappingProposal] using validateMappingResult_default _

/-! ## C9: the OpenAPI Shape Checker is not total -/

/-- C9: contrary to the spec, `validate_openapi_spec` is not total on
dictionary inputs: a document whose `openapi` value is not a string makes
`spec['openapi'].startswith('3.')` raise `AttributeError` instead of
returning a `(bool, errors)` pair. -/
theorem c9_validate_raises_on_nonstring_openapi :
    validateOpenapiSpec (.obj (.cons "openapi" (.num 3) .nil)) = .error "AttributeError" := by
  rfl

/-! ## C5: the `openapi` branch of `_merge_data` -/

/-- C5 (amended): for an `openapi` page the merge overwrites `api_info`
wholesale, appends all incoming endpoints, shallow-merges the schema map
with incoming keys winning, and sets `auth` to the incoming value whenever
the incoming auth is truthy — overwriting an already-set auth (the claim
said an already-set auth is left unchanged; the code has no such guard in
this branch). -/
theorem c5_openapi_merge_amended (st : CrawlState) (nd : JObj) (epsA : JArr) (u : JObj)
    (url : String)
    (he : ogetD nd "endpoints" emptyArr = .arr epsA)
    (hs : ogetD nd "schemas" emptyObj = .obj u)
    (hu : (okeys u).Nodup) :
    ∃ st2, mergeData st (.obj nd) url "openapi" = .ok st2 ∧
      st2.api_info = ogetD nd "info" emptyObj ∧
      st2.endpoints = st.endpoints ++ epsA.toList ∧
      (∀ k, oget st2.schemas k = (match oget u k with
        | some v => some v
        | none => oget st.schemas k)) ∧
      st2.auth = (if truthy (ogetD nd "auth" .null) then ogetD nd "auth" .null else st.auth) ∧
      st2.pages_analyzed = st.pages_analyzed ++ [(url, "openapi")] := by
  refine ⟨CrawlState.mk (st.endpoints ++ epsA.toList) (odictUpdate st.schemas u)
    (if truthy (ogetD nd "auth" .null) then ogetD nd "auth" .null else st.auth)
    (ogetD nd "info" emptyObj) (st.pages_analyzed ++ [(url, "openapi")]), ?_, rfl, rfl, ?_, rfl, rfl⟩
  · have hred : mergeData st (.obj nd) url "openapi"
        = (do
            let newEps ← pyToList (ogetD nd "endpoints" emptyArr)
            let schemas2 ← pyDictUpdate st.schemas (ogetD nd "schemas" emptyObj)
            Except.ok (CrawlState.mk (st.endpoints ++ newEps) schemas2
              (if truthy (ogetD nd "auth" .null) then ogetD nd "auth" .null else st.auth)
              (ogetD nd "info" emptyObj) (st.pages_analyzed ++ [(url, "openapi")]))) := rfl
    rw [hred, he, hs]
    rfl
  · intro k
    exact oget_odictUpdate k u st.schemas hu

/-- C5 counterexample: an already-set truthy `auth` (`"a"`) is overwritten
by the incoming page auth (`"b"`), refuting the claim that auth is set
only if not already set. -/
theorem c5_auth_overwritten_cex :
    (mergeData (CrawlState.mk [] .nil (.str "a") emptyObj [])
        (.obj (.cons "auth" (.str "b") .nil)) "u" "openapi").map CrawlState.auth
      = .ok (.str "b")
    ∧ truthy (.str "a") = true ∧ (Json.str "b") ≠ (.str "a") := by
  exact ⟨rfl, rfl, by decide⟩

theorem c5_witness :
    ∃ st2, mergeData initCrawlState (.obj (.cons "auth" (.str "x") .nil)) "u" "openapi" = .ok st2 ∧
      st2.api_info = ogetD (.cons "auth" (.str "x") .nil) "info" emptyObj ∧
      st2.endpoints = initCrawlState.endpoints ++ JArr.nil.toList ∧
      (∀ k, oget st2.schemas k = (match oget JObj.nil k with
        | some v => some v
        | none => oget initCrawlState.schemas k)) ∧
      st2.auth = (if truthy (ogetD (.cons "auth" (.str "x") .nil) "auth" .null) then
          ogetD (.cons "auth" (.str "x") .nil) "auth" .null else initCrawlState.auth) ∧
      st2.pages_analyzed = initCrawlState.pages_analyzed ++ [("u", "openapi")] :=
  c5_openapi_merge_amended initCrawlState (.cons "auth" (.str "x") .nil) JArr.nil JObj.nil "u"
    rfl rfl (by simp [okeys])

/-! ## C4: the plan summary -/

/-- C4 (amended): the synthesized plan summary copies `goal`, `direction`
and `source_of_truth` from the answers, and `entities_mapped` is the count
of `entity_mappings`; `summary.name` joins the two titles with the literal
separator `" â†” "` found in the source (a mojibake rendering of the arrow
U+2194) — not with `" <-> "` as the claim stated. -/
theorem c4_plan_summary_amended (tA tB : Json) (mk ak : JObj) (flows qs risks : List Json)
    (ems : JArr) (g d s p : Json)
    (hems : oget mk "entity_mappings" = some (.arr ems))
    (hg : oget ak "goal" = some g)
    (hd : oget ak "sync_direction" = some d)
    (hs : oget ak "source_of_truth" = some s)
    (hp : planDict tA tB mk ak flows qs risks = .ok p) :
    ∃ sm, jget p "summary" = some sm ∧
      jget sm "name" = some (.str (pyStr tA ++ nameSep ++ pyStr tB ++ " Integration Plan")) ∧
      jget sm "goal" = some g ∧
      jget sm "direction" = some d ∧
      jget sm "source_of_truth" = some s ∧
      jget sm "entities_mapped" = some (.num ems.length) := by
  have hsum : planSummary tA tB mk ak = .ok (.obj (.cons "name"
      (.str (pyStr tA ++ nameSep ++ pyStr tB ++ " Integration Plan"))
      (.cons "goal" g (.cons "direction" d (.cons "source_of_truth" s
      (.cons "entities_mapped" (.num ems.length) .nil)))))) := by
    have hred : planSummary tA tB mk ak
        = (do
            let emLen ← pyLen (ogetD mk "entity_mappings" emptyArr)
            Except.ok (.obj (.cons "name"
              (.str (pyStr tA ++ nameSep ++ pyStr tB ++ " Integration Plan"))
              (.cons "goal" (ogetD ak "goal" (.str "sync"))
              (.cons "direction" (ogetD ak "sync_direction" (.str "a_to_b"))
              (.cons "source_of_truth" (ogetD ak "source_of_truth" (.str "api_a"))
              (.cons "entities_mapped" (.num emLen) .nil))))))) := rfl
    rw [hred]
    rw [show ogetD mk "entity_mappings" emptyArr = Json.arr ems by rw [ogetD, hems]; rfl]
    rw [show ogetD ak "goal" (.str "sync") = g by rw [ogetD, hg]; rfl]
    rw [show ogetD ak "sync_direction" (.str "a_to_b") = d by rw [ogetD, hd]; rfl]
    rw [show ogetD ak "source_of_truth" (.str "api_a") = s by rw [ogetD, hs]; rfl]
    rfl
  have hpd : planDict tA tB mk ak flows qs risks
      = (planSummary tA tB mk ak).bind (fun summary => Except.ok (.obj (.cons "summary" summary
        (.cons "flows" (.arr (JArr.ofList flows))
        (.cons "open_questions" (.arr (JArr.ofList qs))
        (.cons "risks" (.arr (JArr.ofList risks))
        (.cons "implementation_backlog" (.arr (JArr.ofList (buildBacklog ak))) .nil))))))) := rfl
  rw [hpd, hsum, except_bind_ok] at hp
  cases hp
  refine ⟨_, rfl, ?_, ?_, ?_, ?_, ?_⟩ <;> simp [jget, oget]

/-- C4 counterexample: with titles `"A"` and `"B"` the generated
`summary.name` uses the mojibake separator, so it differs from
`"A <-> B Integration Plan"` claimed by the spec. -/
theorem c4_name_separator_cex :
    ((planDict (.str "A") (.str "B") JObj.nil JObj.nil [] [] []).map
        (fun p => (jget p "summary").bind (fun sm => jget sm "name")))
      = .ok (some (.str ("A" ++ nameSep ++ "B Integration Plan")))
    ∧ ("A" ++ nameSep ++ "B Integration Plan") ≠ "A <-> B Integration Plan" := by
  exact ⟨rfl, by decide⟩

theorem c4_witness :
    ∃ p sm, planDict (.str "A") (.str "B") (.cons "entity_mappings" emptyArr .nil)
        (.cons "goal" (.str "sync") (.cons "sync_direction" (.str "a_to_b")
          (.cons "source_of_truth" (.str "api_a") .nil))) [] [] [] = .ok p ∧
      jget p "summary" = some sm ∧
      jget sm "name" = some (.str (pyStr (.str "A") ++ nameSep ++ pyStr (.str "B") ++ " Integration Plan")) ∧
      jget sm "goal" = some (.str "sync") ∧
      jget sm "direction" = some (.str "a_to_b") ∧
      jget sm "source_of_truth" = some (.str "api_a") ∧
      jget sm "entities_mapped" = some (.num JArr.nil.length) := by
  cases hp : planDict (.str "A") (.str "B") (.cons "entity_mappings" emptyArr .nil)
      (.cons "goal" (.str "sync") (.cons "sync_direction" (.str "a_to_b")
        (.cons "source_of_truth" (.str "api_a") .nil))) [] [] [] with
  | error e =>
    have h0 : isOkE (planDict (.str "A") (.str "B") (.cons "entity_mappings" emptyArr .nil)
        (.cons "goal" (.str "sync") (.cons "sync_direction" (.str "a_to_b")
          (.cons "source_of_truth" (.str "api_a") .nil))) [] [] []) = true := by decide
    rw [hp] at h0
    simp [isOkE] at h0
  | ok p =>
    obtain ⟨sm, h1, h2, h3, h4, h5, h6⟩ :=
      c4_plan_summary_amended (.str "A") (.str "B")
        (.cons "entity_mappings" emptyArr .nil)
        (.cons "goal" (.str "sync") (.cons "sync_direction" (.str "a_to_b")
          (.cons "source_of_truth" (.str "api_a") .nil))) [] [] [] JArr.nil
        (.str "sync") (.str "a_to_b") (.str "api_a") p rfl rfl rfl rfl hp
    exact ⟨p, sm, rfl, h1, h2, h3, h4, h5, h6⟩

/-! ## C3: flows and risks are never empty -/

theorem fieldMapLine_ok (fk : JObj) : ∃ s, fieldMapLine (.obj fk) = .ok s := by
  simp [fieldMapLine]

theorem flowOfMapping_ok (dir : String) (trigger : Json) (ak : JObj) (e : Json)
    (h : ∃ ek fl, e = .obj ek ∧ ogetD ek "field_mappings" emptyArr = .arr fl ∧
      ∀ f ∈ fl.toList, ∃ fk, f = .obj fk) :
    ∃ y, flowOfMapping dir trigger ak e = .ok y := by
  obtain ⟨ek, fl, rfl, hfl, hf⟩ := h
  obtain ⟨lines, hlines, _⟩ := mapME_ok_of_forall (f := fieldMapLine) fl.toList (by
    intro f hfmem
    obtain ⟨fk, rfl⟩ := hf f hfmem
    exact fieldMapLine_ok fk)
  obtain ⟨g, hgred⟩ : ∃ g : List String → Json,
      flowOfMapping dir trigger ak (.obj ek)
        = pyToList (ogetD ek "field_mappings" emptyArr) >>=
            (fun fml => mapME fieldMapLine fml >>= (fun lines => Except.ok (g lines))) :=
    ⟨_, rfl⟩
  refine ⟨g lines, ?_⟩
  rw [hgred, hfl]
  rw [show pyToList (Json.arr fl) = Except.ok fl.toList from rfl]
  rw [except_bind_ok2, hlines, except_bind_ok2]

theorem fieldRiskLoop_ok : ∀ (l : List Json), (∀ f ∈ l, ∃ fk, f = .obj fk) →
    ∃ r, fieldRiskLoop l = .ok r ∧
      ((∀ f ∈ l, ∀ fk, f = .obj fk → ogetD fk "confidence" .null ≠ .str "LOW") → r = [])
  | [], _ => ⟨[], rfl, fun _ => rfl⟩
  | f :: rest, h => by
    obtain ⟨fk, rfl⟩ := h f (by simp)
    obtain ⟨r2, hr2, hempty⟩ := fieldRiskLoop_ok rest (fun a ha => h a (by simp [ha]))
    refine ⟨(if ogetD fk "confidence" .null = .str "LOW" then
        [Json.str ("Low confidence field mapping: " ++ pyStr (ogetD fk "api_a_field" .null)
          ++ " -> " ++ pyStr (ogetD fk "api_b_field" .null))] else []) ++ r2, ?_, ?_⟩
    · simp only [fieldRiskLoop, asObj, except_bind_ok2, hr2]
    · intro hlow
      have h1 := hlow (.obj fk) (by simp) fk rfl
      have h2 : r2 = [] := hempty (fun a ha fk2 hobj => hlow a (by simp [ha]) fk2 hobj)
      simp [h1, h2]

theorem entityRiskLoop_ok : ∀ (l : List Json),
    (∀ e ∈ l, ∃ ek fl, e = .obj ek ∧ ogetD ek "field_mappings" emptyArr = .arr fl ∧
      ∀ f ∈ fl.toList, ∃ fk, f = .obj fk) →
    ∃ r, entityRiskLoop l = .ok r ∧
      ((∀ e ∈ l, ∀ ek, e = .obj ek →
          ogetD ek "confidence" .null ≠ .str "LOW" ∧
          (∀ fl, ogetD ek "field_mappings" emptyArr = .arr fl →
            ∀ f ∈ fl.toList, ∀ fk, f = .obj fk → ogetD fk "confidence" .null ≠ .str "LOW")) →
        r = [])
  | [], _ => ⟨[], rfl, fun _ => rfl⟩
  | e :: rest, h => by
    obtain ⟨ek, fl, rfl, hfl, hf⟩ := h e (by simp)
    obtain ⟨r1, hr1, hempty1⟩ := fieldRiskLoop_ok fl.toList hf
    obtain ⟨r2, hr2, hempty2⟩ := entityRiskLoop_ok rest (fun a ha => h a (by simp [ha]))
    refine ⟨(if ogetD ek "confidence" .null = .str "LOW" then
        [Json.str ("Low confidence entity mapping: " ++ pyStr (ogetD ek "api_a_entity" .null)
          ++ " -> " ++ pyStr (ogetD ek "api_b_entity" .null))] else []) ++ r1 ++ r2, ?_, ?_⟩
    · simp only [entityRiskLoop, asObj, except_bind_ok2, hfl, pyToList, hr1, hr2]
    · intro hlow
      obtain ⟨hc, hfields⟩ := hlow (.obj ek) (by simp) ek rfl
      have h1 : r1 = [] := hempty1 (fun f hfmem fk hobj => hfields fl hfl f hfmem fk hobj)
      have h2 : r2 = [] := hempty2 (fun a ha ek2 hobj => hlow a (by simp [ha]) ek2 hobj)
      simp [hc, h1, h2]

/-- C3: the synthesized integration plan never has an empty flows list or
an empty risks list: with zero entity mappings `_build_flows` yields
exactly one generic fallback flow named "Initial generic synchronization
flow", and with no warnings and no LOW-confidence entity or field mapping
`_build_risks` yields exactly the single sentinel line. -/
theorem c3_flows_and_risks_nonempty (mk ak : JObj) (ems ws : JArr) (dir : String)
    (hems : ogetD mk "entity_mappings" emptyArr = .arr ems)
    (hw : ogetD mk "warnings" emptyArr = .arr ws)
    (hdir : humanDirection (ogetD ak "sync_direction" (.str "a_to_b")) = .ok dir)
    (hshape : ∀ e ∈ ems.toList, ∃ ek fl, e = .obj ek ∧
      ogetD ek "field_mappings" emptyArr = .arr fl ∧
      ∀ f ∈ fl.toList, ∃ fk, f = .obj fk) :
    ∃ flows risks, buildFlows mk ak = .ok flows ∧ buildRisks mk = .ok risks ∧
      flows ≠ [] ∧ risks ≠ [] ∧
      (ems = .nil →
        flows = [genericFlow dir (ogetD ak "trigger_mode" (.str "event")) ak] ∧
        jget (genericFlow dir (ogetD ak "trigger_mode" (.str "event")) ak) "name"
          = some (.str "Initial generic synchronization flow")) ∧
      ((ws = .nil ∧ (∀ e ∈ ems.toList, ∀ ek, e = .obj ek →
          ogetD ek "confidence" .null ≠ .str "LOW" ∧
          (∀ fl, ogetD ek "field_mappings" emptyArr = .arr fl →
            ∀ f ∈ fl.toList, ∀ fk, f = .obj fk → ogetD fk "confidence" .null ≠ .str "LOW"))) →
        risks = [.str "No explicit risks detected from mapping stage"]) := by
  obtain ⟨flows0, hflows0, hlen⟩ :=
    mapME_ok_of_forall (f := flowOfMapping dir (ogetD ak "trigger_mode" (.str "event")) ak)
      ems.toList (fun e he => flowOfMapping_ok _ _ _ _ (hshape e he))
  obtain ⟨extra, hextra, hextraempty⟩ := entityRiskLoop_ok ems.toList hshape
  have hbf : buildFlows mk ak
      = .ok (if flows0.isEmpty then
          [genericFlow dir (ogetD ak "trigger_mode" (.str "event")) ak] else flows0) := by
    simp only [buildFlows, hems, pyToList, except_bind_ok2, hdir, hflows0]
    by_cases hE : flows0.isEmpty <;> simp [hE]
  have hbr : buildRisks mk
      = .ok (if (ws.toList ++ extra).isEmpty then
          [.str "No explicit risks detected from mapping stage"] else ws.toList ++ extra) := by
    simp only [buildRisks, hems, hw, pyToList, except_bind_ok2, hextra]
  refine ⟨_, _, hbf, hbr, ?_, ?_, ?_, ?_⟩
  · by_cases hE : flows0.isEmpty
    · rw [if_pos hE]; simp
    · rw [if_neg hE]
      intro hnil
      exact hE (by simp [hnil])
  · by_cases hE : (ws.toList ++ extra).isEmpty
    · rw [if_pos hE]; simp
    · rw [if_neg hE]
      intro hnil
      exact hE (by simp [hnil])
  · intro hnil
    subst hnil
    have h0 : flows0 = [] := by
      cases flows0 with
      | nil => rfl
      | cons a b => simp [JArr.toList] at hlen
    simp [h0, jget, genericFlow, oget]
  · rintro ⟨hwnil, hlow⟩
    subst hwnil
    have h0 : extra = [] := hextraempty hlow
    simp [h0, JArr.toList]

theorem c3_witness :
    ∃ flows risks, buildFlows JObj.nil JObj.nil = .ok flows ∧ buildRisks JObj.nil = .ok risks ∧
      flows ≠ [] ∧ risks ≠ [] ∧
      (JArr.nil = JArr.nil →
        flows = [genericFlow "A->B" (ogetD JObj.nil "trigger_mode" (.str "event")) JObj.nil] ∧
        jget (genericFlow "A->B" (ogetD JObj.nil "trigger_mode" (.str "event")) JObj.nil) "name"
          = some (.str "Initial generic synchronization flow")) ∧
      ((JArr.nil = JArr.nil ∧ (∀ e ∈ JArr.nil.toList, ∀ ek, e = .obj ek →
          ogetD ek "confidence" .null ≠ .str "LOW" ∧
          (∀ fl, ogetD ek "field_mappings" emptyArr = .arr fl →
            ∀ f ∈ fl.toList, ∀ fk, f = .obj fk → ogetD fk "confidence" .null ≠ .str "LOW"))) →
        risks = [.str "No explicit risks detected from mapping stage"]) :=
  c3_flows_and_risks_nonempty JObj.nil JObj.nil JArr.nil JArr.nil "A->B" rfl rfl rfl
    (by simp [JArr.toList])

/-! ## C6: the Spec Assembler and the clock -/

/-- C6 (amended): `build_openapi_spec` is a pure function of the extracted
data and the clock reading `datetime.now().isoformat()`, and the clock
reading influences nothing but `info.x-extracted-date`: erasing that field
makes the output identical across clock readings. -/
theorem c6_build_deterministic_up_to_timestamp (d : Json) (t1 t2 : String) :
    (buildOpenapiSpec t1 d).map eraseXDate = (buildOpenapiSpec t2 d).map eraseXDate := by
  unfold buildOpenapiSpec
  cases h : buildSpecParts d with
  | error e => rfl
  | ok p =>
    simp only [Except.map]
    congr 1
    unfold assembleSpec
    cases hsec : p.security <;>
      simp [eraseXDate, eraseXDateObj, oremove, oappend]

/-- C6 counterexample: two invocations on equal (empty) extracted data at
different clock readings produce different OpenAPI documents, refuting the
claim that the output is a pure function of the input alone. -/
theorem c6_not_time_invariant_cex :
    buildOpenapiSpec "2024-01-01T00:00:00" emptyObj
      ≠ buildOpenapiSpec "2024-01-02T00:00:00" emptyObj := by
  decide

/-! ## C10: the assembler output passes the shape checker -/

-- Shape invariant of `_build_paths` output: every path item is a dict and
-- every operation in it is a dict holding a `responses` key.
def opsRespOk : JObj → Bool
  | .nil => true
  | .cons _ op t => (match op with
      | .obj ok2 => ohas ok2 "responses"
      | _ => false) && opsRespOk t

def pathsShapeOk : JObj → Bool
  | .nil => true
  | .cons _ v t => (match v with
      | .obj inner => opsRespOk inner
      | _ => false) && pathsShapeOk t

theorem ohas_oappend_left {p : JObj} {k : String} (q : JObj) (h : ohas p k = true) :
    ohas (oappend p q) k = true := by
  rw [ohas, oget_oappend]
  rw [ohas] at h
  cases hh : oget p k with
  | none => rw [hh] at h; simp at h
  | some v => simp

theorem opsRespOk_oset {ok2 : JObj} (m : String) (hok : ohas ok2 "responses" = true) :
    ∀ (i : JObj), opsRespOk i = true → opsRespOk (oset i m (.obj ok2)) = true
  | .nil, _ => by simp [oset, opsRespOk, hok]
  | .cons k op t, hi => by
    simp only [opsRespOk, Bool.and_eq_true] at hi
    by_cases h : k = m
    · simp [oset, h, opsRespOk, hok, hi.2]
    · simp [oset, h, opsRespOk, hi.1, opsRespOk_oset m hok t hi.2]

theorem pathsShapeOk_oset {inner : JObj} (k : String) (hin : opsRespOk inner = true) :
    ∀ (ps : JObj), pathsShapeOk ps = true → pathsShapeOk (oset ps k (.obj inner)) = true
  | .nil, _ => by simp [oset, pathsShapeOk, hin]
  | .cons k0 v t, hp => by
    simp only [pathsShapeOk, Bool.and_eq_true] at hp
    by_cases h : k0 = k
    · simp [oset, h, pathsShapeOk, hin, hp.2]
    · simp [oset, h, pathsShapeOk, hp.1, pathsShapeOk_oset k hin t hp.2]

theorem pathsShapeOk_oget {v : Json} (k : String) :
    ∀ (ps : JObj), pathsShapeOk ps = true → oget ps k = some v →
      ∃ inner, v = .obj inner ∧ opsRespOk inner = true
  | .nil, _, hg => by simp [oget] at hg
  | .cons k0 v0 t, hp, hg => by
    simp only [pathsShapeOk, Bool.and_eq_true] at hp
    simp only [oget] at hg
    by_cases h : k0 = k
    · simp [h] at hg
      subst hg
      cases v0 with
      | obj inner => exact ⟨inner, rfl, hp.1⟩
      | null => simp at hp
      | bool b => simp at hp
      | num n => simp at hp
      | str s => simp at hp
      | arr xs => simp at hp
    · simp [h] at hg
      exact pathsShapeOk_oget k t hp.2 hg

theorem validateOpsLoop_ok (pth : String) :
    ∀ (inner : JObj), opsRespOk inner = true → validateOpsLoop pth inner = .ok []
  | .nil, _ => rfl
  | .cons mth op t, h => by
    simp only [opsRespOk, Bool.and_eq_true] at h
    obtain ⟨h1, h2⟩ := h
    have hrest := validateOpsLoop_ok pth t h2
    by_cases hm : mth ∈ httpMethods
    · cases op with
      | obj ok2 =>
        simp only [validateOpsLoop, if_pos hm, hrest, pyMem]
        simp only at h1
        simp [Json.isObjB, h1, except_bind_ok2]
      | null => simp at h1
      | bool b => simp at h1
      | num n => simp at h1
      | str s => simp at h1
      | arr xs => simp at h1
    · simp only [validateOpsLoop, if_neg hm]
      exact hrest

theorem validatePathsLoop_ok :
    ∀ (ps : JObj), pathsShapeOk ps = true → validatePathsLoop ps = .ok []
  | .nil, _ => rfl
  | .cons pth v t, h => by
    simp only [pathsShapeOk, Bool.and_eq_true] at h
    obtain ⟨h1, h2⟩ := h
    have hrest := validatePathsLoop_ok t h2
    cases v with
    | obj inner =>
      simp only at h1
      simp [validatePathsLoop, validateOpsLoop_ok pth inner h1, hrest, except_bind_ok2]
    | null => simp at h1
    | bool b => simp at h1
    | num n => simp at h1
    | str s => simp at h1
    | arr xs => simp at h1

theorem except_bind_err {ε : Type} {α β : Type} (e : ε) (f : α → Except ε β) :
    (Except.error e : Except ε α) >>= f = .error e := rfl

theorem except_bind_inv {ε α β : Type} {e1 : Except ε α} {f : α → Except ε β} {b : β}
    (h : e1 >>= f = .ok b) : ∃ a, e1 = .ok a ∧ f a = .ok b := by
  cases e1 with
  | error err => rw [except_bind_err] at h; exact Except.noConfusion h
  | ok a => exact ⟨a, rfl, by rw [except_bind_ok2] at h; exact h⟩

theorem ohas_opBase_extras (s d : Json) (oid : String) (tg params resps : Json) (ex : JObj) :
    ohas (oappend (opBase s d oid tg params resps) ex) "responses" = true :=
  ohas_oappend_left ex (by simp [opBase, ohas, oget])

theorem buildPathsStep_inv (paths : JObj) (e : Json) (ps2 : JObj)
    (hstep : buildPathsStep paths e = .ok ps2) :
    ∃ path method s d oid tg params resps extras,
      ps2 = insertOp paths path method
        (oappend (opBase s d oid tg params resps) extras) := by
  obtain ⟨ek, _, h2⟩ := except_bind_inv hstep
  obtain ⟨method, _, h3⟩ := except_bind_inv h2
  obtain ⟨params, _, h4⟩ := except_bind_inv h3
  obtain ⟨resps, _, h5⟩ := except_bind_inv h4
  obtain ⟨extras1, _, h6⟩ := except_bind_inv h5
  exact ⟨_, _, _, _, _, _, _, _, _, (Except.ok.inj h6).symm⟩

theorem insertOp_shape (paths : JObj) (path method : String) (op : JObj)
    (hp : pathsShapeOk paths = true) (hop : ohas op "responses" = true) :
    pathsShapeOk (insertOp paths path method op) = true := by
  unfold insertOp
  cases hv : oget paths path with
  | none => exact pathsShapeOk_oset _ (opsRespOk_oset _ hop JObj.nil rfl) _ hp
  | some v =>
    obtain ⟨inner0, rfl, hin0⟩ := pathsShapeOk_oget _ paths hp hv
    exact pathsShapeOk_oset _ (opsRespOk_oset _ hop _ hin0) _ hp

theorem buildPathsStep_shape (paths : JObj) (e : Json) (ps2 : JObj)
    (hp : pathsShapeOk paths = true)
    (hstep : buildPathsStep paths e = .ok ps2) :
    pathsShapeOk ps2 = true := by
  obtain ⟨path, method, s, d, oid, tg, params, resps, extras, rfl⟩ :=
    buildPathsStep_inv paths e ps2 hstep
  exact insertOp_shape _ _ _ _ hp (ohas_opBase_extras _ _ _ _ _ _ _)


theorem buildPathsGo_shape :
    ∀ (l : List Json) (acc ps : JObj), pathsShapeOk acc = true →
      buildPathsGo acc l = .ok ps → pathsShapeOk ps = true
  | [], acc, ps, hacc, h => by
    cases h
    exact hacc
  | e :: es, acc, ps, hacc, h => by
    obtain ⟨p2, hp2, hrest⟩ := except_bind_inv h
    exact buildPathsGo_shape es p2 ps (buildPathsStep_shape acc e p2 hacc hp2) hrest

theorem buildPaths_shape (eps : List Json) (ps : JObj) (h : buildPaths eps = .ok ps) :
    pathsShapeOk ps = true :=
  buildPathsGo_shape eps .nil ps rfl h

theorem buildSpecParts_paths (d : Json) (p : SpecParts) (h : buildSpecParts d = .ok p) :
    pathsShapeOk p.paths = true := by
  cases d with
  | obj dk =>
    obtain ⟨apiInfo, _, h2⟩ := except_bind_inv h
    obtain ⟨endpoints, _, h3⟩ := except_bind_inv h2
    obtain ⟨paths, hpaths, h4⟩ := except_bind_inv h3
    obtain ⟨comps, _, h5⟩ := except_bind_inv h4
    obtain ⟨tags, _, h6⟩ := except_bind_inv h5
    obtain ⟨compObj, _, h7⟩ := except_bind_inv h6
    have hp : SpecParts.mk apiInfo (buildServers apiInfo) paths comps tags
        (ogetD compObj "securitySchemes" .null)
        (truthy (ogetD compObj "securitySchemes" .null)) = p := Except.ok.inj h7
    rw [← hp]
    exact buildPaths_shape endpoints paths hpaths
  | null => exact Except.noConfusion h
  | bool b => exact Except.noConfusion h
  | num n => exact Except.noConfusion h
  | str s => exact Except.noConfusion h
  | arr xs => exact Except.noConfusion h

theorem validate_assembled (now : String) (p : SpecParts)
    (hps : pathsShapeOk p.paths = true) :
    validateOpenapiSpec (assembleSpec now p) = .ok (true, []) := by
  have hsw : pyStartswith "3.1.0" "3." = true := by decide
  unfold assembleSpec
  cases hsec : p.security with
  | false =>
    simp [validateOpenapiSpec, oget, pyMem, ohas, ogetD, hsw,
      validatePathsLoop_ok p.paths hps, except_bind_ok2]
  | true =>
    simp [validateOpenapiSpec, oget, oappend, oget_oappend, pyMem, ohas, ogetD, hsw,
      validatePathsLoop_ok p.paths hps, except_bind_ok2]

/-- C10 (amended): whenever `build_openapi_spec` returns a document (does
not raise), that document passes `validate_openapi_spec` with
`(true, [])`: the assembled document always carries `openapi` "3.1.0",
`info.title`/`info.version`, a `paths` key, and a `responses` key on every
built operation, so the degraded-but-valid fallback is unreachable for
assembler output. -/
theorem c10_assembler_output_validates (now : String) (d : Json) (s : Json)
    (h : buildOpenapiSpec now d = .ok s) :
    validateOpenapiSpec s = .ok (true, []) := by
  unfold buildOpenapiSpec at h
  cases hp : buildSpecParts d with
  | error e => rw [hp] at h; exact Except.noConfusion h
  | ok p =>
    rw [hp] at h
    have hs : assembleSpec now p = s := Except.ok.inj h
    rw [← hs]
    exact validate_assembled now p (buildSpecParts_paths d p hp)

/-- C10 counterexample: an extracted-data dict whose single endpoint has
string method and path (and no operation_id) but a non-dict truthy
`responses` makes `build_openapi_spec` raise (`.items` on a string), so
`validate(build(x)) = (true, [])` does not hold for every input meeting
the claim's hypotheses. -/
theorem c10_build_can_raise_cex :
    (buildOpenapiSpec "T" (.obj (.cons "endpoints" (.arr (.cons (.obj
        (.cons "method" (.str "GET") (.cons "path" (.str "/a")
        (.cons "responses" (.str "zz") .nil)))) .nil)) .nil))).bind validateOpenapiSpec
      = .error "AttributeError" := by
  rfl

theorem c10_witness :
    ∃ s, buildOpenapiSpec "T" emptyObj = .ok s ∧ validateOpenapiSpec s = .ok (true, []) := by
  cases hb : buildOpenapiSpec "T" emptyObj with
  | error e =>
    have h0 : isOkE (buildOpenapiSpec "T" emptyObj) = true := by decide
    rw [hb] at h0
    simp [isOkE] at h0
  | ok s => exact ⟨s, rfl, c10_assembler_output_validates "T" emptyObj s hb⟩

/-! ## C1: llm_extraction endpoint merging -/

/-- The condition under which `_merge_endpoints` replaces a non-parameters
field by the incoming value: the incoming value is truthy and the existing
value is falsy or strictly shorter when stringified. -/
def newerWins (ex : JObj) (key : String) (v : Json) : Prop :=
  truthy v = true ∧ (truthy (ogetD ex key .null) = false ∨
    (pyStr v).length > (pyStr (ogetD ex key (.str ""))).length)

instance (ex : JObj) (key : String) (v : Json) : Decidable (newerWins ex key v) := by
  unfold newerWins
  infer_instance

theorem mergeFieldsLoop_untouched (ex : JObj) :
    ∀ (rest acc m : JObj), mergeFieldsLoop ex acc rest = .ok m →
      ∀ key, oget rest key = none → oget m key = oget acc key
  | .nil, acc, m, h, key, _ => by
    cases h
    rfl
  | .cons k v t, acc, m, h, key, hnone => by
    have hkey : ¬k = key := by
      simp only [oget] at hnone
      intro hh
      simp [hh] at hnone
    have htail : oget t key = none := by
      simp only [oget] at hnone
      simp [hkey] at hnone
      exact hnone
    by_cases hk : k = "parameters"
    · simp only [mergeFieldsLoop, if_pos hk] at h
      obtain ⟨params, _, h2⟩ := except_bind_inv h
      rw [mergeFieldsLoop_untouched ex t _ m h2 key htail, oget_oset]
      rw [if_neg (by rw [← hk]; intro hh; exact hkey hh.symm)]
    · simp only [mergeFieldsLoop, if_neg hk] at h
      by_cases h1 : (¬truthy (ogetD ex k .null) = true ∧ truthy v = true)
      · rw [if_pos h1] at h
        rw [mergeFieldsLoop_untouched ex t _ m h key htail, oget_oset]
        rw [if_neg (fun hh => hkey hh.symm)]
      · rw [if_neg h1] at h
        by_cases h2 : (truthy v = true ∧ (pyStr v).length > (pyStr (ogetD ex k (.str ""))).length)
        · rw [if_pos h2] at h
          rw [mergeFieldsLoop_untouched ex t _ m h key htail, oget_oset]
          rw [if_neg (fun hh => hkey hh.symm)]
        · rw [if_neg h2] at h
          exact mergeFieldsLoop_untouched ex t _ m h key htail

theorem mergeFieldsLoop_found (ex : JObj) :
    ∀ (rest acc m : JObj) (key : String) (v : Json),
      (okeys rest).Nodup → mergeFieldsLoop ex acc rest = .ok m →
      oget rest key = some v → key ≠ "parameters" →
      oget m key = (if newerWins ex key v then some v else oget acc key)
  | .nil, _, _, key, v, _, _, hsome, _ => by simp [oget] at hsome
  | .cons k v0 t, acc, m, key, v, hnodup, h, hsome, hnp => by
    simp only [okeys, List.nodup_cons] at hnodup
    by_cases hkey : k = key
    · subst hkey
      simp only [oget, if_pos rfl] at hsome
      have hv := (Option.some.inj hsome).symm
      subst hv
      have htail : oget t k = none := oget_none_of_not_mem_okeys k t hnodup.1
      simp only [mergeFieldsLoop, if_neg (fun hh => hnp hh)] at h
      by_cases h1 : (¬truthy (ogetD ex k .null) = true ∧ truthy v = true)
      · rw [if_pos h1] at h
        rw [mergeFieldsLoop_untouched ex t _ m h k htail, oget_oset, if_pos rfl]
        rw [if_pos ⟨h1.2, Or.inl (by simpa using h1.1)⟩]
      · rw [if_neg h1] at h
        by_cases h2 : (truthy v = true ∧ (pyStr v).length > (pyStr (ogetD ex k (.str ""))).length)
        · rw [if_pos h2] at h
          rw [mergeFieldsLoop_untouched ex t _ m h k htail, oget_oset, if_pos rfl]
          rw [if_pos ⟨h2.1, Or.inr h2.2⟩]
        · rw [if_neg h2] at h
          rw [mergeFieldsLoop_untouched ex t _ m h k htail]
          rw [if_neg ?_]
          intro hw
          rcases hw.2 with hA | hB
          · exact h1 ⟨by simpa using hA, hw.1⟩
          · exact h2 ⟨hw.1, hB⟩
    · have hsome2 : oget t key = some v := by
        simp only [oget] at hsome
        simp [hkey] at hsome
        exact hsome
      by_cases hk : k = "parameters"
      · simp only [mergeFieldsLoop, if_pos hk] at h
        obtain ⟨params, _, h2⟩ := except_bind_inv h
        rw [mergeFieldsLoop_found ex t _ m key v hnodup.2 h2 hsome2 hnp, oget_oset]
        rw [if_neg hnp]
      · simp only [mergeFieldsLoop, if_neg hk] at h
        by_cases h1 : (¬truthy (ogetD ex k .null) = true ∧ truthy v0 = true)
        · rw [if_pos h1] at h
          rw [mergeFieldsLoop_found ex t _ m key v hnodup.2 h hsome2 hnp, oget_oset]
          rw [if_neg (show ¬(key = k) from fun hh => hkey hh.symm)]
        · rw [if_neg h1] at h
          by_cases h2 : (truthy v0 = true ∧ (pyStr v0).length > (pyStr (ogetD ex k (.str ""))).length)
          · rw [if_pos h2] at h
            rw [mergeFieldsLoop_found ex t _ m key v hnodup.2 h hsome2 hnp, oget_oset]
            rw [if_neg (show ¬(key = k) from fun hh => hkey hh.symm)]
          · rw [if_neg h2] at h
            exact mergeFieldsLoop_found ex t _ m key v hnodup.2 h hsome2 hnp

theorem mergeEndpoints_fields (ex new mk2 : JObj)
    (hnodup : (okeys new).Nodup)
    (h : mergeEndpoints (.obj ex) (.obj new) = .ok (.obj mk2)) :
    (∀ key v, key ≠ "parameters" → oget new key = some v →
       oget mk2 key = (if newerWins ex key v then some v else oget ex key)) ∧
    (∀ key, oget new key = none → oget mk2 key = oget ex key) := by
  have hloop : ∃ mk0, mergeFieldsLoop ex ex new = .ok mk0 ∧ mk0 = mk2 := by
    have h2 : Except.map Json.obj (mergeFieldsLoop ex ex new) = .ok (.obj mk2) := h
    cases hl : mergeFieldsLoop ex ex new with
    | error e => rw [hl] at h2; exact Except.noConfusion h2
    | ok mk0 =>
      rw [hl] at h2
      exact ⟨mk0, rfl, Json.obj.inj (Except.ok.inj h2)⟩
  obtain ⟨mk0, hl, rfl⟩ := hloop
  constructor
  · intro key v hnp hsome
    exact mergeFieldsLoop_found ex new ex mk0 key v hnodup hl hsome hnp
  · intro key hnone
    exact mergeFieldsLoop_untouched ex new ex mk0 hl key hnone

theorem keysOfE_append : ∀ (eps : List Json) (keys : List String) (e : Json) (k : String),
    keysOfE eps = .ok keys → endpointKey e = .ok k →
    keysOfE (eps ++ [e]) = .ok (keys ++ [k])
  | [], keys, e, k, heps, he => by
    cases heps
    show (endpointKey e) >>= (fun y => (mapME endpointKey []) >>=
      (fun ys => Except.ok (y :: ys))) = Except.ok ([] ++ [k])
    rw [he, except_bind_ok2]
    rfl
  | e0 :: t, keys, e, k, heps, he => by
    obtain ⟨k0, hk0, h2⟩ := except_bind_inv heps
    obtain ⟨ks, hks, h3⟩ := except_bind_inv h2
    cases h3
    have h4 : mapME endpointKey (t ++ [e]) = .ok (ks ++ [k]) :=
      keysOfE_append t ks e k hks he
    show (endpointKey e0) >>= (fun y => (mapME endpointKey (t ++ [e])) >>=
      (fun ys => Except.ok (y :: ys))) = Except.ok ((k0 :: ks) ++ [k])
    rw [hk0, except_bind_ok2, h4, except_bind_ok2]
    rfl

theorem keysOfE_length : ∀ (eps : List Json) (keys : List String),
    keysOfE eps = .ok keys → keys.length = eps.length
  | [], keys, h => by cases h; rfl
  | e0 :: t, keys, h => by
    obtain ⟨k0, hk0, h2⟩ := except_bind_inv h
    obtain ⟨ks, hks, h3⟩ := except_bind_inv h2
    cases h3
    simp [keysOfE_length t ks hks]

theorem keysOfE_get : ∀ (eps : List Json) (keys : List String) (i : Nat) (ex : Json),
    keysOfE eps = .ok keys → eps.get? i = some ex →
    ∃ kx, keys.get? i = some kx ∧ endpointKey ex = .ok kx
  | [], _, i, ex, _, hg => by simp at hg
  | e0 :: t, keys, i, ex, h, hg => by
    obtain ⟨k0, hk0, h2⟩ := except_bind_inv h
    obtain ⟨ks, hks, h3⟩ := except_bind_inv h2
    cases h3
    cases i with
    | zero =>
      simp only [List.get?] at hg
      cases hg
      exact ⟨k0, rfl, hk0⟩
    | succ n =>
      simp only [List.get?] at hg
      obtain ⟨kx, h1, h2⟩ := keysOfE_get t ks n ex hks hg
      exact ⟨kx, h1, h2⟩

theorem keysOfE_set : ∀ (eps : List Json) (keys : List String) (i : Nat) (m : Json) (km : String),
    keysOfE eps = .ok keys → endpointKey m = .ok km →
    keysOfE (eps.set i m) = .ok (keys.set i km)
  | [], keys, i, m, km, h, hm => by
    cases h
    rfl
  | e0 :: t, keys, i, m, km, h, hm => by
    obtain ⟨k0, hk0, h2⟩ := except_bind_inv h
    obtain ⟨ks, hks, h3⟩ := except_bind_inv h2
    cases h3
    cases i with
    | zero =>
      show (endpointKey m) >>= (fun y => (mapME endpointKey t) >>=
        (fun ys => Except.ok (y :: ys))) = Except.ok (km :: ks)
      rw [hm, except_bind_ok2, hks, except_bind_ok2]
    | succ n =>
      have hrec : mapME endpointKey (t.set n m) = .ok (ks.set n km) :=
        keysOfE_set t ks n m km hks hm
      show (endpointKey e0) >>= (fun y => (mapME endpointKey (t.set n m)) >>=
        (fun ys => Except.ok (y :: ys))) = Except.ok (k0 :: ks.set n km)
      rw [hk0, except_bind_ok2, hrec, except_bind_ok2]

theorem listSetSame : ∀ (l : List α) (i : Nat) (a : α), l.get? i = some a → l.set i a = l
  | [], i, a, h => by simp at h
  | x :: t, 0, a, h => by
    simp only [List.get?] at h
    cases h
    rfl
  | x :: t, n + 1, a, h => by
    simp only [List.get?] at h
    simp [List.set, listSetSame t n a h]

theorem mergeEndpointStep_unmatched (eps : List Json) (keys : List String) (e : Json) (k : String)
    (heps : keysOfE eps = .ok keys) (he : endpointKey e = .ok k) (hmem : k ∉ keys) :
    mergeEndpointStep eps e = .ok (eps ++ [e]) := by
  unfold mergeEndpointStep
  rw [he, except_bind_ok2, heps, except_bind_ok2, if_neg hmem]

theorem mergeEndpointStep_matched (eps : List Json) (keys : List String) (e : Json) (k : String)
    (ex merged : Json)
    (heps : keysOfE eps = .ok keys) (he : endpointKey e = .ok k) (hmem : k ∈ keys)
    (hget : eps.get? (keys.indexOf k) = some ex)
    (hmerge : mergeEndpoints ex e = .ok merged) :
    mergeEndpointStep eps e = .ok (eps.set (keys.indexOf k) merged) := by
  unfold mergeEndpointStep
  rw [he, except_bind_ok2, heps, except_bind_ok2, if_pos hmem]
  show (match eps.get? (keys.indexOf k) with
    | some ex2 =>
        (mergeEndpoints ex2 e) >>= (fun merged2 => Except.ok (eps.set (keys.indexOf k) merged2))
    | none => Except.error "IndexError") = Except.ok (eps.set (keys.indexOf k) merged)
  rw [hget]
  simp only [hmerge, except_bind_ok2]

theorem get?_indexOf_of_mem : ∀ (l : List String) (a : String), a ∈ l →
    l.get? (l.indexOf a) = some a
  | [], a, h => by simp at h
  | x :: t, a, h => by
    by_cases hx : x = a
    · subst hx
      rw [List.indexOf_cons_self]
      rfl
    · have hmem : a ∈ t := by
        rcases List.mem_cons.mp h with h1 | h1
        · exact absurd h1.symm hx
        · exact h1
      rw [List.indexOf_cons_ne _ hx]
      simpa using get?_indexOf_of_mem t a hmem

theorem mergeEndpoints_key (exK newK mk2 : JObj) (k : String) (vm wm vp wp : Json)
    (hnodup : (okeys newK).Nodup)
    (hwm : oget exK "method" = some wm) (hvm : oget newK "method" = some vm)
    (hpm : pyStr vm = pyStr wm)
    (hwp : oget exK "path" = some wp) (hvp : oget newK "path" = some vp)
    (hpp : pyStr vp = pyStr wp)
    (hk : endpointKey (.obj exK) = .ok k)
    (hmerge : mergeEndpoints (.obj exK) (.obj newK) = .ok (.obj mk2)) :
    endpointKey (.obj mk2) = .ok k := by
  obtain ⟨hfound, _⟩ := mergeEndpoints_fields exK newK mk2 hnodup hmerge
  have hm2 : oget mk2 "method" = (if newerWins exK "method" vm then some vm else oget exK "method") :=
    hfound "method" vm (by decide) hvm
  have hp2 : oget mk2 "path" = (if newerWins exK "path" vp then some vp else oget exK "path") :=
    hfound "path" vp (by decide) hvp
  have hkval : k = pyStr (ogetD exK "method" .null) ++ ":" ++ pyStr (ogetD exK "path" .null) :=
    (Except.ok.inj hk).symm
  have hmeq : pyStr (ogetD mk2 "method" .null) = pyStr (ogetD exK "method" .null) := by
    rw [ogetD, ogetD, hm2, hwm]
    by_cases hw : newerWins exK "method" vm
    · rw [if_pos hw]
      simpa using hpm
    · rw [if_neg hw]
  have hpeq : pyStr (ogetD mk2 "path" .null) = pyStr (ogetD exK "path" .null) := by
    rw [ogetD, ogetD, hp2, hwp]
    by_cases hw : newerWins exK "path" vp
    · rw [if_pos hw]
      simpa using hpp
    · rw [if_neg hw]
  show Except.ok (pyStr (ogetD mk2 "method" .null) ++ ":" ++ pyStr (ogetD mk2 "path" .null)) = .ok k
  rw [hmeq, hpeq, hkval]

/-- C1 (amended): merging `llm_extraction` results is keyed by the
METHOD:PATH endpoint identity, provided the aggregate endpoints carry
pairwise-distinct keys and a matched pair agree field-wise on the
stringified method and path — in particular whenever the two endpoints
have equal method strings and equal path strings, the common case the
spec describes.  In order: (i) the field-by-field rule of
`_merge_endpoints` replaces a non-parameters field by the incoming value
exactly when the incoming value is truthy and the existing value is falsy
or strictly shorter when stringified (equal lengths keep the first-seen
value), untouched otherwise; (ii) under distinct keys, an unmatched
incoming endpoint is appended and its key then occurs exactly once;
(iii) under distinct keys, an incoming endpoint whose key matches and
whose stringified method and path each agree with the matched entry is
merged into that entry in place, the merged endpoint keeps the key, and
exactly one endpoint with the key remains; (iv) concretely, merging two
results that both contain `GET /users` with different description lengths
yields exactly one such endpoint carrying the longer description.
Without the agreement condition the exactly-one-key conclusion is false:
a pair can share a key while straddling the `:` separator, and the field
rule then produces a merged endpoint with a different key, leaving zero
endpoints with the original key (see the counterexample, which also shows
aggregates with duplicate keys — reachable through `openapi`-page merges,
which append without deduplication — keep the duplicates). -/
theorem c1_endpoint_identity_merge_amended :
    (∀ (ex new mk2 : JObj), (okeys new).Nodup →
        mergeEndpoints (.obj ex) (.obj new) = .ok (.obj mk2) →
        (∀ key v, key ≠ "parameters" → oget new key = some v →
           oget mk2 key = (if newerWins ex key v then some v else oget ex key)) ∧
        (∀ key, oget new key = none → oget mk2 key = oget ex key)) ∧
    (∀ (eps : List Json) (keys : List String) (e : Json) (k : String),
        keysOfE eps = .ok keys → endpointKey e = .ok k → k ∉ keys →
        mergeEndpointStep eps e = .ok (eps ++ [e]) ∧
        keysOfE (eps ++ [e]) = .ok (keys ++ [k]) ∧ (keys ++ [k]).count k = 1) ∧
    (∀ (eps : List Json) (keys : List String) (k : String) (exK newK mk2 : JObj)
        (vm wm vp wp : Json),
        keysOfE eps = .ok keys → keys.Nodup →
        endpointKey (.obj newK) = .ok k → k ∈ keys →
        eps.get? (keys.indexOf k) = some (.obj exK) →
        (okeys newK).Nodup →
        oget exK "method" = some wm → oget newK "method" = some vm → pyStr vm = pyStr wm →
        oget exK "path" = some wp → oget newK "path" = some vp → pyStr vp = pyStr wp →
        mergeEndpoints (.obj exK) (.obj newK) = .ok (.obj mk2) →
        mergeEndpointStep eps (.obj newK) = .ok (eps.set (keys.indexOf k) (.obj mk2)) ∧
        endpointKey (.obj mk2) = .ok k ∧
        keysOfE (eps.set (keys.indexOf k) (.obj mk2)) = .ok keys ∧ keys.count k = 1) ∧
    ((do
        let st1 ← mergeData initCrawlState (.obj (.cons "endpoints" (.arr (.cons (.obj
          (.cons "method" (.str "GET") (.cons "path" (.str "/users")
          (.cons "description" (.str "Get users") .nil)))) .nil)) .nil)) "u1" "llm_extraction"
        let st2 ← mergeData st1 (.obj (.cons "endpoints" (.arr (.cons (.obj
          (.cons "method" (.str "GET") (.cons "path" (.str "/users")
          (.cons "description" (.str "Returns the full list of users") .nil)))) .nil)) .nil))
          "u2" "llm_extraction"
        pure st2.endpoints : Except String (List Json))
      = .ok [.obj (.cons "method" (.str "GET") (.cons "path" (.str "/users")
          (.cons "description" (.str "Returns the full list of users") .nil)))]) := by
  refine ⟨mergeEndpoints_fields, ?_, ?_, rfl⟩
  · intro eps keys e k heps he hmem
    refine ⟨mergeEndpointStep_unmatched eps keys e k heps he hmem,
      keysOfE_append eps keys e k heps he, ?_⟩
    rw [List.count_append, List.count_eq_zero_of_not_mem hmem]
    simp
  · intro eps keys k exK newK mk2 vm wm vp wp heps hnodup he hmem hget hnodup2
      hwm hvm hpm hwp hvp hpp hmerge
    obtain ⟨kx, hkx, hek⟩ := keysOfE_get eps keys (keys.indexOf k) (.obj exK) heps hget
    rw [get?_indexOf_of_mem keys k hmem] at hkx
    have hkk : k = kx := Option.some.inj hkx
    subst hkk
    have hkey := mergeEndpoints_key exK newK mk2 k vm wm vp wp hnodup2
      hwm hvm hpm hwp hvp hpp hek hmerge
    refine ⟨mergeEndpointStep_matched eps keys (.obj newK) k (.obj exK) (.obj mk2)
      heps he hmem hget hmerge, hkey, ?_, List.count_eq_one_of_mem hnodup hmem⟩
    rw [keysOfE_set eps keys (keys.indexOf k) (.obj mk2) k heps hkey,
      listSetSame keys (keys.indexOf k) k (get?_indexOf_of_mem keys k hmem)]

/-- C1 counterexample, refuting the unconditional exactly-one-key claim
twice over.  First, an aggregate that already holds two endpoints with the
key `GET:/users` (reachable through openapi-page merges) merges an
incoming `llm_extraction` endpoint into the first entry only, so two
endpoints with that key remain.  Second, a matched pair can share a key
while straddling the `:` separator — existing method `a:b` / path `c` and
incoming method `a` / path `b:c` both have key `a:b:c` — and the
longer-string field rule then merges them to method `a:b` / path `b:c`,
whose key `a:b:b:c` differs, so zero endpoints with the shared key
remain. -/
theorem c1_duplicate_key_aggregate_cex :
    (((processEndpoints
        [.obj (.cons "method" (.str "GET") (.cons "path" (.str "/users")
           (.cons "description" (.str "a") .nil))),
         .obj (.cons "method" (.str "GET") (.cons "path" (.str "/users")
           (.cons "description" (.str "bb") .nil)))]
        [.obj (.cons "method" (.str "GET") (.cons "path" (.str "/users")
           (.cons "description" (.str "ccc") .nil)))]).bind keysOfE)
      = .ok ["GET:/users", "GET:/users"]
    ∧ (["GET:/users", "GET:/users"].count "GET:/users" = 2))
    ∧ (endpointKey (.obj (.cons "method" (.str "a:b") (.cons "path" (.str "c") .nil)))
        = .ok "a:b:c"
    ∧ endpointKey (.obj (.cons "method" (.str "a") (.cons "path" (.str "b:c") .nil)))
        = .ok "a:b:c"
    ∧ ((mergeEndpointStep
          [.obj (.cons "method" (.str "a:b") (.cons "path" (.str "c") .nil))]
          (.obj (.cons "method" (.str "a") (.cons "path" (.str "b:c") .nil)))).bind keysOfE)
        = .ok ["a:b:b:c"]
    ∧ (["a:b:b:c"].count "a:b:c" = 0)) := by
  exact ⟨⟨rfl, by decide⟩, rfl, rfl, rfl, by decide⟩

theorem c1_witness :
    (oget (.cons "method" (.str "GET") (.cons "path" (.str "/users")
        (.cons "description" (.str "Returns the full list of users") .nil)))
      "description" = some (.str "Returns the full list of users")) ∧
    (mergeEndpointStep [] (.obj (.cons "method" (.str "GET") (.cons "path" (.str "/users") .nil)))
      = .ok [.obj (.cons "method" (.str "GET") (.cons "path" (.str "/users") .nil))]) ∧
    (endpointKey (.obj (.cons "method" (.str "GET") (.cons "path" (.str "/users")
        (.cons "description" (.str "Returns the full list of users") .nil)))) = .ok "GET:/users"
     ∧ ["GET:/users"].count "GET:/users" = 1) := by
  obtain ⟨hA, hB, hC, _⟩ := c1_endpoint_identity_merge_amended
  refine ⟨?_, ?_, ?_⟩
  · have hm : mergeEndpoints
        (.obj (.cons "method" (.str "GET") (.cons "path" (.str "/users")
          (.cons "description" (.str "Get users") .nil))))
        (.obj (.cons "method" (.str "GET") (.cons "path" (.str "/users")
          (.cons "description" (.str "Returns the full list of users") .nil))))
        = .ok (.obj (.cons "method" (.str "GET") (.cons "path" (.str "/users")
          (.cons "description" (.str "Returns the full list of users") .nil)))) := by rfl
    obtain ⟨hfound, _⟩ := hA _ _ _ (by decide) hm
    have := hfound "description" (.str "Returns the full list of users") (by decide) (by rfl)
    rw [this, if_pos (by decide)]
  · exact (hB [] [] (.obj (.cons "method" (.str "GET") (.cons "path" (.str "/users") .nil)))
      "GET:/users" rfl rfl (by decide)).1
  · have h := hC
      [.obj (.cons "method" (.str "GET") (.cons "path" (.str "/users")
         (.cons "description" (.str "Get users") .nil)))]
      ["GET:/users"] "GET:/users"
      (.cons "method" (.str "GET") (.cons "path" (.str "/users")
         (.cons "description" (.str "Get users") .nil)))
      (.cons "method" (.str "GET") (.cons "path" (.str "/users")
         (.cons "description" (.str "Returns the full list of users") .nil)))
      (.cons "method" (.str "GET") (.cons "path" (.str "/users")
         (.cons "description" (.str "Returns the full list of users") .nil)))
      (.str "GET") (.str "GET") (.str "/users") (.str "/users")
      rfl (by decide) rfl (by decide) (by decide) (by decide)
      rfl rfl rfl rfl rfl rfl (by rfl)
    exact ⟨h.2.1, h.2.2.2⟩

/-! ## C7 and C8: Schema Composer idempotence and reference nodes -/





theorem typePart_eq (kvs : JObj) : typePart kvs = partFor "type" (typeView kvs) := by
  cases h : oget kvs "type" <;> simp [typePart, typeView, partFor, h]


theorem oget_oappend_partFor (k0 key : String) (ov : Option Json) (q : JObj) :
    oget (oappend (partFor k0 ov) q) key =
      if k0 = key then (ov.or (oget q key)) else oget q key := by
  cases ov <;> simp [partFor, oappend, oget] <;> split <;> rfl

theorem oget_partFor (k0 key : String) (ov : Option Json) :
    oget (partFor k0 ov) key = if k0 = key then ov.or none else none := by
  cases ov <;> simp [partFor, oget] <;> split <;> rfl

theorem oget_oappend_copyKeys (kvs q : JObj) (key : String) :
    ∀ ks : List String, oget (oappend (copyKeys kvs ks) q) key =
      if key ∈ ks then ((oget kvs key).or (oget q key)) else oget q key
  | [] => by simp [copyKeys, oappend]
  | k :: ks => by
    by_cases hk : k = key
    · subst hk
      cases h : oget kvs k with
      | none => simp [copyKeys, h, oget_oappend_copyKeys kvs q k ks]
      | some v => simp [copyKeys, h, oappend, oget]
    · cases h : oget kvs k with
      | none =>
        rw [copyKeys, h, oget_oappend_copyKeys kvs q key ks]
        have hk2 : ¬(key = k) := fun hh => hk hh.symm
        simp [List.mem_cons, hk2]
      | some v =>
        rw [copyKeys, h]
        simp only [oappend, oget, if_neg hk, oget_oappend_copyKeys kvs q key ks]
        have hk2 : ¬(key = k) := fun hh => hk hh.symm
        simp [List.mem_cons, hk2]

theorem buildSchema_obj (kvs : JObj) : buildSchema (.obj kvs) =
    (if ohas kvs "$ref" then .ok (.obj kvs)
    else do
      let propsPart : JObj ← (match h : oget kvs "properties" with
        | none => Except.ok JObj.nil
        | some (.obj ps) =>
            (buildSchemaProps ps).map (fun ps2 => JObj.cons "properties" (.obj ps2) .nil)
        | some _ => Except.error "AttributeError")
      let reqPart : JObj := (match oget kvs "required" with
        | none => JObj.nil
        | some v => JObj.cons "required" v JObj.nil)
      let apPart : JObj ← (match h : oget kvs "additionalProperties" with
        | none => Except.ok JObj.nil
        | some (.bool b) => Except.ok (JObj.cons "additionalProperties" (.bool b) JObj.nil)
        | some v => (buildSchema v).map (fun v2 => JObj.cons "additionalProperties" v2 JObj.nil))
      let itemsPart : JObj ← (match h : oget kvs "items" with
        | none => Except.ok JObj.nil
        | some v => (buildSchema v).map (fun v2 => JObj.cons "items" v2 JObj.nil))
      let oneOfPart : JObj ← (match h : oget kvs "oneOf" with
        | none => Except.ok JObj.nil
        | some (.arr xs) => (buildSchemaArr xs).map (fun ys => JObj.cons "oneOf" (.arr ys) JObj.nil)
        | some (.str s) => Except.ok (JObj.cons "oneOf" (.arr (constArr s.length)) JObj.nil)
        | some (.obj o) => Except.ok (JObj.cons "oneOf" (.arr (constArr (okeys o).length)) JObj.nil)
        | some _ => Except.error "TypeError")
      let anyOfPart : JObj ← (match h : oget kvs "anyOf" with
        | none => Except.ok JObj.nil
        | some (.arr xs) => (buildSchemaArr xs).map (fun ys => JObj.cons "anyOf" (.arr ys) JObj.nil)
        | some (.str s) => Except.ok (JObj.cons "anyOf" (.arr (constArr s.length)) JObj.nil)
        | some (.obj o) => Except.ok (JObj.cons "anyOf" (.arr (constArr (okeys o).length)) JObj.nil)
        | some _ => Except.error "TypeError")
      let allOfPart : JObj ← (match h : oget kvs "allOf" with
        | none => Except.ok JObj.nil
        | some (.arr xs) => (buildSchemaArr xs).map (fun ys => JObj.cons "allOf" (.arr ys) JObj.nil)
        | some (.str s) => Except.ok (JObj.cons "allOf" (.arr (constArr s.length)) JObj.nil)
        | some (.obj o) => Except.ok (JObj.cons "allOf" (.arr (constArr (okeys o).length)) JObj.nil)
        | some _ => Except.error "TypeError")
      let discPart : JObj := (match oget kvs "discriminator" with
        | none => JObj.nil
        | some v => JObj.cons "discriminator" v JObj.nil)
      Except.ok (.obj (oappend (typePart kvs) (oappend (copyKeys kvs scalarKeys)
        (oappend propsPart (oappend reqPart (oappend apPart (oappend itemsPart
        (oappend oneOfPart (oappend anyOfPart (oappend allOfPart discPart)))))))))) :
      Except String Json) := by
  rw [buildSchema]

theorem buildSchema_nonobj : ∀ x : Json, (∀ kvs, x ≠ .obj kvs) → buildSchema x = .ok strSchema
  | .null, _ => by rw [buildSchema]; intro kvs h; cases h
  | .bool b, _ => by rw [buildSchema]; intro kvs h; cases h
  | .num n, _ => by rw [buildSchema]; intro kvs h; cases h
  | .str s, _ => by rw [buildSchema]; intro kvs h; cases h
  | .arr xs, _ => by rw [buildSchema]; intro kvs h; cases h
  | .obj kvs, h => absurd rfl (h kvs)

theorem buildSchemaProps_cons (k : String) (v : Json) (t : JObj) :
    buildSchemaProps (.cons k v t) =
      (buildSchema v).bind fun v2 => (buildSchemaProps t).map fun t2 => .cons k v2 t2 := by
  rw [buildSchemaProps]

theorem buildSchemaArr_cons (h : Json) (t : JArr) :
    buildSchemaArr (.cons h t) =
      (buildSchema h).bind fun h2 => (buildSchemaArr t).map fun t2 => .cons h2 t2 := by
  rw [buildSchemaArr]

-- Getter calculus on the canonical composed object.
theorem ogetAP_type (kvs : JObj) (p a i o1 o2 o3 : Option Json) :
    oget (assembleParts kvs p a i o1 o2 o3) "type" = typeView kvs := by
  simp [assembleParts, oget_oappend_partFor, oget_oappend_copyKeys, oget_partFor, scalarKeys]

theorem ogetAP_props (kvs : JObj) (p a i o1 o2 o3 : Option Json) :
    oget (assembleParts kvs p a i o1 o2 o3) "properties" = p := by
  simp [assembleParts, oget_oappend_partFor, oget_oappend_copyKeys, oget_partFor, scalarKeys]

theorem ogetAP_req (kvs : JObj) (p a i o1 o2 o3 : Option Json) :
    oget (assembleParts kvs p a i o1 o2 o3) "required" = oget kvs "required" := by
  simp [assembleParts, oget_oappend_partFor, oget_oappend_copyKeys, oget_partFor, scalarKeys]

theorem ogetAP_ap (kvs : JObj) (p a i o1 o2 o3 : Option Json) :
    oget (assembleParts kvs p a i o1 o2 o3) "additionalProperties" = a := by
  simp [assembleParts, oget_oappend_partFor, oget_oappend_copyKeys, oget_partFor, scalarKeys]

theorem ogetAP_items (kvs : JObj) (p a i o1 o2 o3 : Option Json) :
    oget (assembleParts kvs p a i o1 o2 o3) "items" = i := by
  simp [assembleParts, oget_oappend_partFor, oget_oappend_copyKeys, oget_partFor, scalarKeys]

theorem ogetAP_oneOf (kvs : JObj) (p a i o1 o2 o3 : Option Json) :
    oget (assembleParts kvs p a i o1 o2 o3) "oneOf" = o1 := by
  simp [assembleParts, oget_oappend_partFor, oget_oappend_copyKeys, oget_partFor, scalarKeys]

theorem ogetAP_anyOf (kvs : JObj) (p a i o1 o2 o3 : Option Json) :
    oget (assembleParts kvs p a i o1 o2 o3) "anyOf" = o2 := by
  simp [assembleParts, oget_oappend_partFor, oget_oappend_copyKeys, oget_partFor, scalarKeys]

theorem ogetAP_allOf (kvs : JObj) (p a i o1 o2 o3 : Option Json) :
    oget (assembleParts kvs p a i o1 o2 o3) "allOf" = o3 := by
  simp [assembleParts, oget_oappend_partFor, oget_oappend_copyKeys, oget_partFor, scalarKeys]

theorem ogetAP_disc (kvs : JObj) (p a i o1 o2 o3 : Option Json) :
    oget (assembleParts kvs p a i o1 o2 o3) "discriminator" = oget kvs "discriminator" := by
  simp [assembleParts, oget_oappend_partFor, oget_oappend_copyKeys, oget_partFor, scalarKeys]

theorem ogetAP_ref (kvs : JObj) (p a i o1 o2 o3 : Option Json) :
    oget (assembleParts kvs p a i o1 o2 o3) "$ref" = none := by
  simp [assembleParts, oget_oappend_partFor, oget_oappend_copyKeys, oget_partFor, scalarKeys]

theorem ogetAP_nullable (kvs : JObj) (p a i o1 o2 o3 : Option Json) :
    oget (assembleParts kvs p a i o1 o2 o3) "nullable" = none := by
  simp [assembleParts, oget_oappend_partFor, oget_oappend_copyKeys, oget_partFor, scalarKeys]

theorem ogetAP_scalar (kvs : JObj) (p a i o1 o2 o3 : Option Json) (key : String)
    (hk : key ∈ scalarKeys) :
    oget (assembleParts kvs p a i o1 o2 o3) key = oget kvs key := by
  fin_cases hk <;>
    simp [assembleParts, oget_oappend_partFor, oget_oappend_copyKeys, oget_partFor, scalarKeys]

theorem refOk_eq_obj (kvs : JObj) :
    refOk (.obj kvs) = ((!(ohas kvs "$ref") || isSingle kvs) && refOkObj kvs) := by
  rw [refOk]

theorem refOkObj_cons (k : String) (v : Json) (t : JObj) :
    refOkObj (.cons k v t) = (refOk v && refOkObj t) := by
  rw [refOkObj]

theorem refOkArr_cons (h : Json) (t : JArr) :
    refOkArr (.cons h t) = (refOk h && refOkArr t) := by
  rw [refOkArr]

theorem refOkObj_oappend : ∀ (p q : JObj),
    refOkObj (oappend p q) = (refOkObj p && refOkObj q)
  | .nil, q => by simp [oappend, refOkObj]
  | .cons k v t, q => by
    simp [oappend, refOkObj_cons, refOkObj_oappend t q, Bool.and_assoc]

theorem refOkObj_partFor (k0 : String) : ∀ ov : Option Json,
    refOkObj (partFor k0 ov) = (match ov with | some v => refOk v | none => true)
  | some v => by simp [partFor, refOkObj_cons, refOkObj]
  | none => by simp [partFor, refOkObj]

theorem refOkObj_oget {key : String} {v : Json} :
    ∀ kvs : JObj, refOkObj kvs = true → oget kvs key = some v → refOk v = true
  | .cons k w t, hok, hg => by
    rw [refOkObj_cons, Bool.and_eq_true] at hok
    rw [oget] at hg
    by_cases hk : k = key
    · rw [if_pos hk] at hg
      cases hg
      exact hok.1
    · rw [if_neg hk] at hg
      exact refOkObj_oget t hok.2 hg
  | .nil, hok, hg => by rw [oget] at hg; cases hg

theorem refOkObj_copyKeys (kvs : JObj) (hok : refOkObj kvs = true) :
    ∀ ks : List String, refOkObj (copyKeys kvs ks) = true
  | [] => by rw [copyKeys]; rw [refOkObj]
  | k :: ks => by
    rw [copyKeys]
    cases h : oget kvs k with
    | none => exact refOkObj_copyKeys kvs hok ks
    | some v =>
      rw [refOkObj_cons, Bool.and_eq_true]
      exact ⟨refOkObj_oget kvs hok h, refOkObj_copyKeys kvs hok ks⟩

theorem refOk_strSchema : refOk strSchema = true := by
  simp [strSchema, refOk_eq_obj, refOkObj_cons, ohas, oget, refOkObj, refOk]

theorem refOkArr_constArr : ∀ n : Nat, refOkArr (constArr n) = true
  | 0 => by rw [constArr]; rw [refOkArr]
  | n + 1 => by
    rw [constArr, refOkArr_cons, Bool.and_eq_true]
    exact ⟨refOk_strSchema, refOkArr_constArr n⟩

theorem buildSchema_strSchema : buildSchema strSchema = .ok strSchema := by
  rw [strSchema, buildSchema_obj]
  simp [ohas, oget, typePart, typeView, ogetD, truthy, copyKeys, scalarKeys, oappend]
  rfl

theorem buildSchemaArr_constArr : ∀ n : Nat, buildSchemaArr (constArr n) = .ok (constArr n)
  | 0 => by rw [constArr]; rw [buildSchemaArr]
  | n + 1 => by
    rw [constArr, buildSchemaArr_cons, buildSchema_strSchema, buildSchemaArr_constArr n]
    rfl

theorem okeys_length_one_isSingle : ∀ kvs : JObj, isSingle kvs = ((okeys kvs).length == 1)
  | .nil => by simp [isSingle, okeys]
  | .cons k v .nil => by simp [isSingle, okeys]
  | .cons k v (.cons k2 v2 t) => by simp [isSingle, okeys]

theorem ohas_okeys : ∀ kvs : JObj, ∀ key : String, ohas kvs key = (okeys kvs).contains key
  | .nil, key => by simp [ohas, oget, okeys]
  | .cons k v t, key => by
    by_cases h : k = key
    · simp [ohas, oget, okeys, h]
    · have ht := ohas_okeys t key
      rw [ohas] at ht
      have hk2 : ¬(key = k) := fun hh => h hh.symm
      simp [ohas, oget, okeys, h, hk2, ht]

theorem partFor_comm (k0 : String) (ov : Option Json) :
    (match ov with
      | none => JObj.nil
      | some v => JObj.cons k0 v JObj.nil) = partFor k0 ov := by
  cases ov <;> rfl

theorem typeView_AP (kvs : JObj) (p a i o1 o2 o3 : Option Json) :
    typeView (assembleParts kvs p a i o1 o2 o3) = typeView kvs := by
  rw [typeView, ogetAP_type]
  have hn : ogetD (assembleParts kvs p a i o1 o2 o3) "nullable" Json.null = Json.null := by
    rw [ogetD, ogetAP_nullable]; rfl
  rw [hn]
  simp [truthy]

theorem copyKeys_congr (A B : JObj) :
    ∀ ks : List String, (∀ k ∈ ks, oget A k = oget B k) → copyKeys A ks = copyKeys B ks
  | [], _ => by rw [copyKeys, copyKeys]
  | k :: ks, h => by
    rw [copyKeys, copyKeys, h k (List.mem_cons_self k ks),
      copyKeys_congr A B ks (fun k2 hk2 => h k2 (List.mem_cons_of_mem k hk2))]

theorem copyKeys_AP (kvs : JObj) (p a i o1 o2 o3 : Option Json) :
    copyKeys (assembleParts kvs p a i o1 o2 o3) scalarKeys = copyKeys kvs scalarKeys :=
  copyKeys_congr _ _ scalarKeys (fun k hk => ogetAP_scalar kvs p a i o1 o2 o3 k hk)

theorem ohas_AP_ref (kvs : JObj) (p a i o1 o2 o3 : Option Json) :
    ohas (assembleParts kvs p a i o1 o2 o3) "$ref" = false := by
  rw [ohas, ogetAP_ref]; rfl


theorem partFor_refOk_of (k0 : String) (ov : Option Json)
    (h : ∀ v, ov = some v → refOk v = true) : refOkObj (partFor k0 ov) = true := by
  cases ov with
  | none => rw [partFor]; rw [refOkObj]
  | some v => rw [partFor, refOkObj_cons, h v rfl]; rw [refOkObj]; rfl

theorem refOkObj_AP (kvs : JObj) (p a i o1 o2 o3 : Option Json)
    (hkvs : refOkObj kvs = true)
    (ht : ∀ v, typeView kvs = some v → refOk v = true)
    (hp : ∀ v, p = some v → refOk v = true)
    (ha : ∀ v, a = some v → refOk v = true)
    (hi : ∀ v, i = some v → refOk v = true)
    (h1 : ∀ v, o1 = some v → refOk v = true)
    (h2 : ∀ v, o2 = some v → refOk v = true)
    (h3 : ∀ v, o3 = some v → refOk v = true) :
    refOkObj (assembleParts kvs p a i o1 o2 o3) = true := by
  rw [assembleParts]
  rw [refOkObj_oappend, refOkObj_oappend, refOkObj_oappend, refOkObj_oappend,
    refOkObj_oappend, refOkObj_oappend, refOkObj_oappend, refOkObj_oappend, refOkObj_oappend]
  simp only [Bool.and_eq_true]
  exact ⟨partFor_refOk_of _ _ ht, refOkObj_copyKeys kvs hkvs scalarKeys,
    partFor_refOk_of _ _ hp,
    partFor_refOk_of _ _ (fun v hv => refOkObj_oget kvs hkvs hv),
    partFor_refOk_of _ _ ha, partFor_refOk_of _ _ hi,
    partFor_refOk_of _ _ h1, partFor_refOk_of _ _ h2, partFor_refOk_of _ _ h3,
    partFor_refOk_of _ _ (fun v hv => refOkObj_oget kvs hkvs hv)⟩

theorem except_map_inv {ε α β : Type} {f : α → β} {e : Except ε α} {b : β}
    (h : Except.map f e = .ok b) : ∃ a, e = .ok a ∧ f a = b := by
  cases e with
  | error err => cases h
  | ok a => exact ⟨a, rfl, by cases h; rfl⟩

theorem propsStep_inv (kvs : JObj) (p1 : JObj)
    (h : (match h : oget kvs "properties" with
      | none => Except.ok JObj.nil
      | some (.obj ps) =>
          (buildSchemaProps ps).map (fun ps2 => JObj.cons "properties" (.obj ps2) .nil)
      | some _ => Except.error "AttributeError") = Except.ok p1) :
    ∃ pv, p1 = partFor "properties" pv ∧ PropsGood kvs pv := by
  split at h
  · cases h
    exact ⟨none, rfl, Or.inl ⟨rfl, by assumption⟩⟩
  · rename_i ps heq
    obtain ⟨ps2, hb, hv⟩ := except_map_inv h
    exact ⟨some (.obj ps2), hv.symm, Or.inr ⟨ps, ps2, heq, hb, rfl⟩⟩
  · cases h

theorem apStep_inv (kvs : JObj) (p1 : JObj)
    (h : (match h : oget kvs "additionalProperties" with
      | none => Except.ok JObj.nil
      | some (.bool b) => Except.ok (JObj.cons "additionalProperties" (.bool b) JObj.nil)
      | some v => (buildSchema v).map (fun v2 => JObj.cons "additionalProperties" v2 JObj.nil))
      = Except.ok p1) :
    ∃ av, p1 = partFor "additionalProperties" av ∧ ApGood kvs av := by
  split at h
  · cases h
    exact ⟨none, rfl, Or.inl ⟨rfl, by assumption⟩⟩
  · rename_i b heq
    cases h
    exact ⟨some (.bool b), rfl, Or.inr (Or.inl ⟨b, heq, rfl⟩)⟩
  · rename_i v hne heq
    obtain ⟨v2, hb, hv⟩ := except_map_inv h
    exact ⟨some v2, hv.symm, Or.inr (Or.inr ⟨v, v2, heq, hb, rfl⟩)⟩

theorem itemsStep_inv (kvs : JObj) (p1 : JObj)
    (h : (match h : oget kvs "items" with
      | none => Except.ok JObj.nil
      | some v => (buildSchema v).map (fun v2 => JObj.cons "items" v2 JObj.nil))
      = Except.ok p1) :
    ∃ iv, p1 = partFor "items" iv ∧ ItemsGood kvs iv := by
  split at h
  · cases h
    exact ⟨none, rfl, Or.inl ⟨rfl, by assumption⟩⟩
  · rename_i v heq
    obtain ⟨v2, hb, hv⟩ := except_map_inv h
    exact ⟨some v2, hv.symm, Or.inr ⟨v, v2, heq, hb, rfl⟩⟩

theorem unionStep_inv (key : String) (kvs : JObj) (p1 : JObj)
    (h : (match h : oget kvs key with
      | none => Except.ok JObj.nil
      | some (.arr xs) => (buildSchemaArr xs).map (fun ys => JObj.cons key (.arr ys) JObj.nil)
      | some (.str s) => Except.ok (JObj.cons key (.arr (constArr s.length)) JObj.nil)
      | some (.obj o) => Except.ok (JObj.cons key (.arr (constArr (okeys o).length)) JObj.nil)
      | some _ => Except.error "TypeError") = Except.ok p1) :
    ∃ ov, p1 = partFor key ov ∧ UnionGood key kvs ov := by
  split at h
  · cases h
    exact ⟨none, rfl, Or.inl ⟨rfl, by assumption⟩⟩
  · rename_i xs heq
    obtain ⟨ys, hb, hv⟩ := except_map_inv h
    exact ⟨some (.arr ys), hv.symm, Or.inr (Or.inl ⟨xs, ys, heq, hb, rfl⟩)⟩
  · rename_i s heq
    cases h
    exact ⟨some (.arr (constArr s.length)), rfl, Or.inr (Or.inr (Or.inl ⟨s, heq, rfl⟩))⟩
  · rename_i o heq
    cases h
    exact ⟨some (.arr (constArr (okeys o).length)), rfl,
      Or.inr (Or.inr (Or.inr ⟨o, heq, rfl⟩))⟩
  · cases h

theorem propsStep_eval (Y : JObj) (pv : Option Json)
    (hg : oget Y "properties" = pv)
    (hshape : ∀ v, pv = some v → ∃ ps2, v = .obj ps2 ∧ buildSchemaProps ps2 = .ok ps2) :
    (match h : oget Y "properties" with
      | none => Except.ok JObj.nil
      | some (.obj ps) =>
          (buildSchemaProps ps).map (fun ps2 => JObj.cons "properties" (.obj ps2) .nil)
      | some _ => Except.error "AttributeError") = Except.ok (partFor "properties" pv) := by
  split
  · rename_i heq
    rw [hg] at heq
    rw [heq]
    rfl
  · rename_i ps heq
    rw [hg] at heq
    obtain ⟨ps2, hobj, hidem⟩ := hshape _ heq
    cases hobj
    rw [hidem, heq]
    rfl
  · rename_i v hne heq
    rw [hg] at heq
    obtain ⟨ps2, hobj, _⟩ := hshape v heq
    exact absurd hobj (by intro hh; exact hne ps2 (by rw [hh]))

theorem apStep_eval (Y : JObj) (av : Option Json)
    (hg : oget Y "additionalProperties" = av)
    (hshape : ∀ v, av = some v → (∃ b, v = .bool b) ∨ buildSchema v = .ok v) :
    (match h : oget Y "additionalProperties" with
      | none => Except.ok JObj.nil
      | some (.bool b) => Except.ok (JObj.cons "additionalProperties" (.bool b) JObj.nil)
      | some v => (buildSchema v).map (fun v2 => JObj.cons "additionalProperties" v2 JObj.nil))
      = Except.ok (partFor "additionalProperties" av) := by
  split
  · rename_i heq
    rw [hg] at heq
    rw [heq]
    rfl
  · rename_i b heq
    rw [hg] at heq
    rw [heq]
    rfl
  · rename_i v hne heq
    rw [hg] at heq
    rcases hshape v heq with ⟨b, hb⟩ | hidem
    · exact absurd hb (by intro hh; exact hne b (by rw [hh]))
    · rw [hidem, heq]
      rfl

theorem itemsStep_eval (Y : JObj) (iv : Option Json)
    (hg : oget Y "items" = iv)
    (hidem : ∀ v, iv = some v → buildSchema v = .ok v) :
    (match h : oget Y "items" with
      | none => Except.ok JObj.nil
      | some v => (buildSchema v).map (fun v2 => JObj.cons "items" v2 JObj.nil))
      = Except.ok (partFor "items" iv) := by
  split
  · rename_i heq
    rw [hg] at heq
    rw [heq]
    rfl
  · rename_i v heq
    rw [hg] at heq
    rw [hidem v heq, heq]
    rfl

theorem unionStep_eval (key : String) (Y : JObj) (ov : Option Json)
    (hg : oget Y key = ov)
    (hshape : ∀ v, ov = some v → ∃ ys, v = .arr ys ∧ buildSchemaArr ys = .ok ys) :
    (match h : oget Y key with
      | none => Except.ok JObj.nil
      | some (.arr xs) => (buildSchemaArr xs).map (fun ys => JObj.cons key (.arr ys) JObj.nil)
      | some (.str s) => Except.ok (JObj.cons key (.arr (constArr s.length)) JObj.nil)
      | some (.obj o) => Except.ok (JObj.cons key (.arr (constArr (okeys o).length)) JObj.nil)
      | some _ => Except.error "TypeError") = Except.ok (partFor key ov) := by
  split
  · rename_i heq
    rw [hg] at heq
    rw [heq]
    rfl
  · rename_i xs heq
    rw [hg] at heq
    obtain ⟨ys, harr, hidem⟩ := hshape _ heq
    cases harr
    rw [hidem, heq]
    rfl
  · rename_i s heq
    rw [hg] at heq
    obtain ⟨ys, harr, _⟩ := hshape _ heq
    cases harr
  · rename_i o heq
    rw [hg] at heq
    obtain ⟨ys, harr, _⟩ := hshape _ heq
    cases harr
  · rename_i v hne1 hne2 hne3 heq
    rw [hg] at heq
    obtain ⟨ys, harr, _⟩ := hshape v heq
    exact absurd harr (by intro hh; exact hne1 ys (by rw [hh]))


theorem unionRefOk (kvs : JObj) (n : Nat) (ih : ∀ m, m < n → SchemaP m)
    (hkvs : refOkObj kvs = true) (hsz : osize kvs < n)
    (key : String) (ov : Option Json) (hG : UnionGood key kvs ov) :
    ∀ v, ov = some v → refOk v = true := by
  intro v hv
  rcases hG with ⟨hnone, _⟩ | ⟨xs, ys, hget, hbxs, hov⟩ | ⟨s, hget, hov⟩ | ⟨o, hget, hov⟩
  · rw [hnone] at hv; cases hv
  · rw [hov] at hv
    cases hv
    rw [refOk]
    have hlt : asize xs < n := by
      have hj := oget_size kvs hget
      simp [jsize] at hj
      omega
    have hrin := refOkObj_oget kvs hkvs hget
    rw [refOk] at hrin
    exact ((ih (asize xs) hlt).2.2 xs ys (le_refl _) hbxs).2 hrin
  · rw [hov] at hv
    cases hv
    rw [refOk]
    exact refOkArr_constArr _
  · rw [hov] at hv
    cases hv
    rw [refOk]
    exact refOkArr_constArr _

theorem schemaObjCase (n : Nat) (ih : ∀ m, m < n → SchemaP m)
    (kvs : JObj) (y : Json) (hsz : jsize (.obj kvs) ≤ n)
    (href : ¬ohas kvs "$ref" = true)
    (hb : buildSchema (.obj kvs) = .ok y) :
    (∃ k2, y = .obj k2) ∧ buildSchema y = .ok y ∧
      (refOk (.obj kvs) = true → refOk y = true) := by
  rw [buildSchema_obj, if_neg href] at hb
  obtain ⟨p1, hP, hb⟩ := except_bind_inv hb
  obtain ⟨pv, hp1, hPG⟩ := propsStep_inv kvs p1 hP
  subst hp1
  obtain ⟨a1, hA, hb⟩ := except_bind_inv hb
  obtain ⟨av, ha1, hAG⟩ := apStep_inv kvs a1 hA
  subst ha1
  obtain ⟨i1, hI, hb⟩ := except_bind_inv hb
  obtain ⟨iv, hi1, hIG⟩ := itemsStep_inv kvs i1 hI
  subst hi1
  obtain ⟨u1, hU1, hb⟩ := except_bind_inv hb
  obtain ⟨ov1, hu1, hG1⟩ := unionStep_inv "oneOf" kvs u1 hU1
  subst hu1
  obtain ⟨u2, hU2, hb⟩ := except_bind_inv hb
  obtain ⟨ov2, hu2, hG2⟩ := unionStep_inv "anyOf" kvs u2 hU2
  subst hu2
  obtain ⟨u3, hU3, hb⟩ := except_bind_inv hb
  obtain ⟨ov3, hu3, hG3⟩ := unionStep_inv "allOf" kvs u3 hU3
  subst hu3
  have h2 : Except.ok (Json.obj (oappend (typePart kvs) (oappend (copyKeys kvs scalarKeys)
      (oappend (partFor "properties" pv)
       (oappend (match oget kvs "required" with
          | none => JObj.nil
          | some v => JObj.cons "required" v JObj.nil)
        (oappend (partFor "additionalProperties" av)
         (oappend (partFor "items" iv)
          (oappend (partFor "oneOf" ov1)
           (oappend (partFor "anyOf" ov2)
            (oappend (partFor "allOf" ov3)
             (match oget kvs "discriminator" with
              | none => JObj.nil
              | some v => JObj.cons "discriminator" v JObj.nil))))))))))) = Except.ok y := hb
  have hy : y = .obj (assembleParts kvs pv av iv ov1 ov2 ov3) := by
    rw [← Except.ok.inj h2, typePart_eq, partFor_comm, partFor_comm]
    rfl
  subst hy
  have hszk : osize kvs + 1 ≤ n := by
    simp [jsize] at hsz
    omega
  have hPs : ∀ v, pv = some v → ∃ ps2, v = .obj ps2 ∧ buildSchemaProps ps2 = .ok ps2 := by
    intro v hv
    rcases hPG with ⟨hnone, _⟩ | ⟨ps, ps2, hget, hbps, hpv⟩
    · rw [hnone] at hv; cases hv
    · rw [hpv] at hv
      cases hv
      refine ⟨ps2, rfl, ?_⟩
      have hlt : osize ps < n := by
        have hj := oget_size kvs hget
        simp [jsize] at hj
        omega
      exact ((ih (osize ps) hlt).2.1 ps ps2 (le_refl _) hbps).2.1
  have hAs : ∀ v, av = some v → (∃ b, v = .bool b) ∨ buildSchema v = .ok v := by
    intro v hv
    rcases hAG with ⟨hnone, _⟩ | ⟨b, hget, hav⟩ | ⟨v0, v2, hget, hbv, hav⟩
    · rw [hnone] at hv; cases hv
    · rw [hav] at hv; cases hv; exact Or.inl ⟨b, rfl⟩
    · rw [hav] at hv
      cases hv
      have hlt : jsize v0 < n := by
        have hj := oget_size kvs hget
        omega
      exact Or.inr ((ih (jsize v0) hlt).1 v0 v (le_refl _) hbv).2.1
  have hIs : ∀ v, iv = some v → buildSchema v = .ok v := by
    intro v hv
    rcases hIG with ⟨hnone, _⟩ | ⟨v0, v2, hget, hbv, hiv⟩
    · rw [hnone] at hv; cases hv
    · rw [hiv] at hv
      cases hv
      have hlt : jsize v0 < n := by
        have hj := oget_size kvs hget
        omega
      exact ((ih (jsize v0) hlt).1 v0 v (le_refl _) hbv).2.1
  have hUs : ∀ (key : String) (ov : Option Json), UnionGood key kvs ov →
      ∀ v, ov = some v → ∃ ys, v = .arr ys ∧ buildSchemaArr ys = .ok ys := by
    intro key ov hG v hv
    rcases hG with ⟨hnone, _⟩ | ⟨xs, ys, hget, hbxs, hov⟩ | ⟨s, hget, hov⟩ | ⟨o, hget, hov⟩
    · rw [hnone] at hv; cases hv
    · rw [hov] at hv
      cases hv
      have hlt : asize xs < n := by
        have hj := oget_size kvs hget
        simp [jsize] at hj
        omega
      exact ⟨ys, rfl, ((ih (asize xs) hlt).2.2 xs ys (le_refl _) hbxs).1⟩
    · rw [hov] at hv
      cases hv
      exact ⟨_, rfl, buildSchemaArr_constArr _⟩
    · rw [hov] at hv
      cases hv
      exact ⟨_, rfl, buildSchemaArr_constArr _⟩
  refine ⟨⟨_, rfl⟩, ?_, ?_⟩
  · rw [buildSchema_obj]
    rw [if_neg (by simp [ohas_AP_ref])]
    rw [propsStep_eval _ pv (ogetAP_props kvs pv av iv ov1 ov2 ov3) hPs]
    simp only [except_bind_ok2]
    rw [apStep_eval _ av (ogetAP_ap kvs pv av iv ov1 ov2 ov3) hAs]
    simp only [except_bind_ok2]
    rw [itemsStep_eval _ iv (ogetAP_items kvs pv av iv ov1 ov2 ov3) hIs]
    simp only [except_bind_ok2]
    rw [unionStep_eval "oneOf" _ ov1 (ogetAP_oneOf kvs pv av iv ov1 ov2 ov3) (hUs "oneOf" ov1 hG1)]
    simp only [except_bind_ok2]
    rw [unionStep_eval "anyOf" _ ov2 (ogetAP_anyOf kvs pv av iv ov1 ov2 ov3) (hUs "anyOf" ov2 hG2)]
    simp only [except_bind_ok2]
    rw [unionStep_eval "allOf" _ ov3 (ogetAP_allOf kvs pv av iv ov1 ov2 ov3) (hUs "allOf" ov3 hG3)]
    simp only [except_bind_ok2]
    rw [partFor_comm, partFor_comm, typePart_eq, typeView_AP, copyKeys_AP,
      ogetAP_req, ogetAP_disc]
    rfl
  · intro hx
    rw [refOk_eq_obj, Bool.and_eq_true] at hx
    have hkvs : refOkObj kvs = true := hx.2
    rw [refOk_eq_obj, ohas_AP_ref]
    simp only [Bool.not_false, Bool.true_or, Bool.true_and]
    apply refOkObj_AP kvs pv av iv ov1 ov2 ov3 hkvs
    · intro v hv
      rw [typeView] at hv
      cases hg : oget kvs "type" with
      | none => rw [hg] at hv; cases hv
      | some t =>
        rw [hg] at hv
        have hrt := refOkObj_oget kvs hkvs hg
        cases htr : truthy (ogetD kvs "nullable" Json.null) with
        | false =>
          rw [htr] at hv
          simp at hv
          rw [← hv]
          exact hrt
        | true =>
          rw [htr] at hv
          simp at hv
          rw [← hv]
          rw [refOk, refOkArr_cons, refOkArr_cons, hrt]
          rw [refOk]
          rw [refOkArr]
          rfl
    · intro v hv
      rcases hPG with ⟨hnone, _⟩ | ⟨ps, ps2, hget, hbps, hpv⟩
      · rw [hnone] at hv; cases hv
      · rw [hpv] at hv
        cases hv
        have hrin := refOkObj_oget kvs hkvs hget
        rw [refOk_eq_obj, Bool.and_eq_true] at hrin
        have hlt : osize ps < n := by
          have hj := oget_size kvs hget
          simp [jsize] at hj
          omega
        obtain ⟨hkeys, _, hrefp⟩ := (ih (osize ps) hlt).2.1 ps ps2 (le_refl _) hbps
        rw [refOk_eq_obj, Bool.and_eq_true]
        refine ⟨?_, hrefp hrin.2⟩
        rw [ohas_okeys, okeys_length_one_isSingle, hkeys, ← ohas_okeys,
          ← okeys_length_one_isSingle]
        exact hrin.1
    · intro v hv
      rcases hAG with ⟨hnone, _⟩ | ⟨b, hget, hav⟩ | ⟨v0, v2, hget, hbv, hav⟩
      · rw [hnone] at hv; cases hv
      · rw [hav] at hv
        cases hv
        rw [refOk]
      · rw [hav] at hv
        cases hv
        have hlt : jsize v0 < n := by
          have hj := oget_size kvs hget
          omega
        exact ((ih (jsize v0) hlt).1 v0 v (le_refl _) hbv).2.2
          (refOkObj_oget kvs hkvs hget)
    · intro v hv
      rcases hIG with ⟨hnone, _⟩ | ⟨v0, v2, hget, hbv, hiv⟩
      · rw [hnone] at hv; cases hv
      · rw [hiv] at hv
        cases hv
        have hlt : jsize v0 < n := by
          have hj := oget_size kvs hget
          omega
        exact ((ih (jsize v0) hlt).1 v0 v (le_refl _) hbv).2.2
          (refOkObj_oget kvs hkvs hget)
    · exact unionRefOk kvs n ih hkvs (by omega) "oneOf" ov1 hG1
    · exact unionRefOk kvs n ih hkvs (by omega) "anyOf" ov2 hG2
    · exact unionRefOk kvs n ih hkvs (by omega) "allOf" ov3 hG3

theorem schemaMain : ∀ n : Nat, SchemaP n := by
  intro n
  induction n using Nat.strong_induction_on with
  | _ n ih =>
    refine ⟨?_, ?_, ?_⟩
    · intro x y hsz hb
      cases x with
      | null =>
        rw [buildSchema_nonobj _ (fun kvs h => Json.noConfusion h)] at hb
        cases hb
        exact ⟨⟨_, rfl⟩, buildSchema_strSchema, fun _ => refOk_strSchema⟩
      | bool b =>
        rw [buildSchema_nonobj _ (fun kvs h => Json.noConfusion h)] at hb
        cases hb
        exact ⟨⟨_, rfl⟩, buildSchema_strSchema, fun _ => refOk_strSchema⟩
      | num m =>
        rw [buildSchema_nonobj _ (fun kvs h => Json.noConfusion h)] at hb
        cases hb
        exact ⟨⟨_, rfl⟩, buildSchema_strSchema, fun _ => refOk_strSchema⟩
      | str s =>
        rw [buildSchema_nonobj _ (fun kvs h => Json.noConfusion h)] at hb
        cases hb
        exact ⟨⟨_, rfl⟩, buildSchema_strSchema, fun _ => refOk_strSchema⟩
      | arr xs =>
        rw [buildSchema_nonobj _ (fun kvs h => Json.noConfusion h)] at hb
        cases hb
        exact ⟨⟨_, rfl⟩, buildSchema_strSchema, fun _ => refOk_strSchema⟩
      | obj kvs =>
        by_cases href : ohas kvs "$ref" = true
        · rw [buildSchema_obj, if_pos href] at hb
          cases hb
          exact ⟨⟨_, rfl⟩, by rw [buildSchema_obj, if_pos href], fun h => h⟩
        · exact schemaObjCase n ih kvs y hsz href hb
    · intro o o2 hsz hb
      cases o with
      | nil =>
        rw [buildSchemaProps] at hb
        cases hb
        exact ⟨rfl, by rw [buildSchemaProps], fun h => h⟩
      | cons k v t =>
        rw [buildSchemaProps_cons] at hb
        obtain ⟨v2, hv, hb⟩ := except_bind_inv hb
        obtain ⟨t2, ht, hmap⟩ := except_map_inv hb
        subst hmap
        have hlt1 : jsize v < n := by
          simp [osize] at hsz
          omega
        have hlt2 : osize t < n := by
          simp [osize] at hsz
          omega
        obtain ⟨⟨k2, hk2⟩, hiv, hrv⟩ := (ih (jsize v) hlt1).1 v v2 (le_refl _) hv
        obtain ⟨hkeys, hit, hrt⟩ := (ih (osize t) hlt2).2.1 t t2 (le_refl _) ht
        refine ⟨by simp [okeys, hkeys], ?_, ?_⟩
        · rw [buildSchemaProps_cons, hiv]
          simp only [except_bind_ok2, except_bind_ok]
          rw [hit]
          rfl
        · intro h
          rw [refOkObj_cons, Bool.and_eq_true] at h ⊢
          exact ⟨hrv h.1, hrt h.2⟩
    · intro a a2 hsz hb
      cases a with
      | nil =>
        rw [buildSchemaArr] at hb
        cases hb
        exact ⟨by rw [buildSchemaArr], fun h => h⟩
      | cons hd t =>
        rw [buildSchemaArr_cons] at hb
        obtain ⟨h2, hv, hb⟩ := except_bind_inv hb
        obtain ⟨t2, ht, hmap⟩ := except_map_inv hb
        subst hmap
        have hlt1 : jsize hd < n := by
          simp [asize] at hsz
          omega
        have hlt2 : asize t < n := by
          simp [asize] at hsz
          omega
        obtain ⟨_, hiv, hrv⟩ := (ih (jsize hd) hlt1).1 hd h2 (le_refl _) hv
        obtain ⟨hit, hrt⟩ := (ih (asize t) hlt2).2.2 t t2 (le_refl _) ht
        refine ⟨?_, ?_⟩
        · rw [buildSchemaArr_cons, hiv]
          simp only [except_bind_ok2, except_bind_ok]
          rw [hit]
          rfl
        · intro h
          rw [refOkArr_cons, Bool.and_eq_true] at h ⊢
          exact ⟨hrv h.1, hrt h.2⟩

theorem buildSchema_idem (x y : Json) (h : buildSchema x = .ok y) : buildSchema y = .ok y :=
  ((schemaMain (jsize x)).1 x y (le_refl _) h).2.1

theorem buildSchema_refOk (x y : Json) (hr : refOk x = true) (h : buildSchema x = .ok y) :
    refOk y = true :=
  ((schemaMain (jsize x)).1 x y (le_refl _) h).2.2 hr

/-- C7: the Schema Composer is idempotent: whenever `_build_schema` maps an
input schema `x` to a composed output `y`, composing `y` again succeeds and
returns `y` itself — for every output, not only object/array/union nodes
without unrecognized keys. -/
theorem c7_schema_composer_idempotent :
    ∀ x y : Json, buildSchema x = .ok y → buildSchema y = .ok y :=
  fun x y h => buildSchema_idem x y h

theorem c7_witness :
    buildSchema (.obj (.cons "type" (.str "string") (.cons "nullable" (.bool true) .nil)))
        = .ok (.obj (.cons "type"
            (.arr (.cons (.str "string") (.cons (.str "null") .nil))) .nil))
    ∧ buildSchema (.obj (.cons "type"
          (.arr (.cons (.str "string") (.cons (.str "null") .nil))) .nil))
        = .ok (.obj (.cons "type"
            (.arr (.cons (.str "string") (.cons (.str "null") .nil))) .nil)) := by
  have hb : buildSchema
      (.obj (.cons "type" (.str "string") (.cons "nullable" (.bool true) .nil)))
      = .ok (.obj (.cons "type"
          (.arr (.cons (.str "string") (.cons (.str "null") .nil))) .nil)) := by
    rw [buildSchema_obj]
    simp [ohas, oget, typePart, typeView, ogetD, truthy, copyKeys, scalarKeys, oappend]
    rfl
  exact ⟨hb, c7_schema_composer_idempotent _ _ hb⟩

/-- C8 (amended): `$ref` nodes are passed through without further
processing, and the reference-node invariant (an object node holding `$ref`
carries no other keys) is preserved by the composer, not established: if
every reference node of the input is a pure single-key reference, the same
holds for every node of the composed output.  It does not hold for every
input: a passthrough node that arrives with keys next to `$ref` keeps them
(see the counterexample). -/
theorem c8_ref_passthrough_invariant_amended :
    (∀ kvs : JObj, ohas kvs "$ref" = true → buildSchema (.obj kvs) = .ok (.obj kvs)) ∧
    (∀ x y : Json, refOk x = true → buildSchema x = .ok y → refOk y = true) :=
  ⟨fun kvs h => by rw [buildSchema_obj, if_pos h],
   fun x y hr h => buildSchema_refOk x y hr h⟩

theorem c8_ref_extra_keys_cex :
    buildSchema (.obj (.cons "$ref" (.str "#/components/schemas/User")
        (.cons "type" (.str "string") .nil)))
      = .ok (.obj (.cons "$ref" (.str "#/components/schemas/User")
        (.cons "type" (.str "string") .nil)))
    ∧ refOk (.obj (.cons "$ref" (.str "#/components/schemas/User")
        (.cons "type" (.str "string") .nil))) = false := by
  constructor
  · rw [buildSchema_obj]
    simp [ohas, oget]
  · simp [refOk_eq_obj, ohas, oget, isSingle]

theorem c8_witness :
    buildSchema (.obj (.cons "$ref" (.str "#/a") .nil))
        = .ok (.obj (.cons "$ref" (.str "#/a") .nil))
    ∧ refOk strSchema = true := by
  obtain ⟨h1, h2⟩ := c8_ref_passthrough_invariant_amended
  refine ⟨h1 _ (by simp [ohas, oget]), h2 Json.null strSchema (by rw [refOk])
    (buildSchema_nonobj Json.null (fun kvs h => Json.noConfusion h))⟩
